import Mathlib

set_option maxHeartbeats 1000000
set_option maxRecDepth 8000

/-! Shallow embedding of the tidy_table core: the cross-entity validation
engine (the POST handler of the validate API route) and the
structured-output mediator (src/utils/ollama.ts, src/utils/gemini.ts,
src/utils/ai-provider.ts).  JavaScript numbers are modelled as rationals
with NaN as a separate constructor; machine floating point, hexadecimal
numeric-string forms and the Infinity values are outside the modelled
subset (none of the verified properties depend on them). -/

/-- JavaScript runtime values as they occur in decoded row data. -/
inductive Value where
  | vUndefined
  | vNull
  | vBool (b : Bool)
  | vNum (q : ℚ)
  | vNaN
  | vStr (s : String)
  | vArr (elems : List Value)
  | vObj (fields : List (String × Value))

/-- JavaScript truthiness of a value (`if (v)`). -/
def Value.truthy : Value → Bool
  | .vUndefined => false
  | .vNull => false
  | .vBool b => b
  | .vNum q => q != 0
  | .vNaN => false
  | .vStr s => s != ""
  | .vArr _ => true
  | .vObj _ => true

/-- The JavaScript `typeof` operator. -/
def Value.typeof : Value → String
  | .vUndefined => "undefined"
  | .vNull => "object"
  | .vBool _ => "boolean"
  | .vNum _ => "number"
  | .vNaN => "number"
  | .vStr _ => "string"
  | .vArr _ => "object"
  | .vObj _ => "object"

/-- Whether a value is exactly the given string. -/
def Value.isStr : Value → String → Bool
  | .vStr t, s => t == s
  | _, _ => false

/-- The SameValueZero comparison used by JavaScript `Set` membership.
Arrays and objects compare by reference; values deserialised from JSON
occupy distinct references, so two array/object occurrences in row data
are never SameValueZero-equal and the comparison returns false there. -/
def sameValueZero : Value → Value → Bool
  | .vUndefined, .vUndefined => true
  | .vNull, .vNull => true
  | .vBool a, .vBool b => a == b
  | .vNum a, .vNum b => a == b
  | .vNaN, .vNaN => true
  | .vStr a, .vStr b => a == b
  | _, _ => false

theorem sameValueZero_symm (a b : Value) :
    sameValueZero a b = sameValueZero b a := by
  cases a <;> cases b <;> simp [sameValueZero] <;> exact ⟨fun h => h.symm, fun h => h.symm⟩

theorem sameValueZero_trans {a b c : Value} (hab : sameValueZero a b = true)
    (hbc : sameValueZero b c = true) : sameValueZero a c = true := by
  cases a <;> cases b <;> cases c <;> simp_all [sameValueZero]

theorem sameValueZero_truthy {a b : Value} (h : sameValueZero a b = true) :
    a.truthy = b.truthy := by
  cases a <;> cases b <;> simp_all [sameValueZero, Value.truthy]

theorem sameValueZero_isStr {w : Value} {s : String} :
    sameValueZero w (.vStr s) = w.isStr s := by
  cases w <;> simp [sameValueZero, Value.isStr]

/-- A decoded row object: an association list of column name to value
(JavaScript object keys are unique, and the rows handed to the engine
come from the JSON request body). -/
abbrev Row := List (String × Value)

/-- Property access `row[key]`: the stored value, or `undefined` when the
key is absent. -/
def rowGet (r : Row) (key : String) : Value :=
  match r.find? (fun kv => kv.1 == key) with
  | some kv => kv.2
  | none => .vUndefined

/-- The row of a collection at an index (used only to state properties;
all indices appearing in statements are in range). -/
def rowAt (data : List Row) (i : Nat) : Row := data.getD i []

/-- The identifier value of row `i` of a collection. -/
def idAt (data : List Row) (idColumn : String) (i : Nat) : Value :=
  rowGet (rowAt data i) idColumn

mutual
/-- JavaScript string conversion of a value, as performed by template
literals (`String(v)`); rational display is exact for integers. -/
def jsDisplay : Value → String
  | .vUndefined => "undefined"
  | .vNull => "null"
  | .vBool b => if b then "true" else "false"
  | .vNum q => toString q
  | .vNaN => "NaN"
  | .vStr s => s
  | .vArr xs => String.intercalate "," (jsDisplayList xs)
  | .vObj _ => "[object Object]"

/-- Element conversion used by `Array.prototype.join`: `null` and
`undefined` become the empty string. -/
def jsDisplayElem : Value → String
  | .vUndefined => ""
  | .vNull => ""
  | v => jsDisplay v

def jsDisplayList : List Value → List String
  | [] => []
  | v :: vs => jsDisplayElem v :: jsDisplayList vs
end

/-- The `join(sep)` of an array of values. -/
def jsJoin (sep : String) (xs : List Value) : String :=
  String.intercalate sep (jsDisplayList xs)

/-- JavaScript whitespace as recognised by `String.prototype.trim` and
`Number` coercion (the common code points). -/
def isJsSpace (c : Char) : Bool :=
  c == ' ' || c == '\t' || c == '\n' || c == '\r' ||
  c == '\x0b' || c == '\x0c' || c == ' ' || c == '﻿'

/-- Trim JavaScript whitespace from both ends of a character list. -/
def jsTrimList (cs : List Char) : List Char :=
  ((cs.dropWhile isJsSpace).reverse.dropWhile isJsSpace).reverse

def digitVal (c : Char) : Nat := c.toNat - '0'.toNat

def digitsToNat (ds : List Char) : Nat :=
  ds.foldl (fun acc c => acc * 10 + digitVal c) 0

/-- Parse the exponent suffix of a numeric string; `q` is the mantissa
already parsed.  Accepts `e`/`E`, an optional sign and a non-empty digit
run that must end the string. -/
def parseExpPart (q : ℚ) (cs : List Char) : Option ℚ :=
  match cs with
  | [] => some q
  | e :: rest =>
    if e == 'e' || e == 'E' then
      let (neg, rest2) :=
        match rest with
        | '+' :: r => (false, r)
        | '-' :: r => (true, r)
        | r => (false, r)
      let ed := rest2.takeWhile Char.isDigit
      let rest3 := rest2.drop ed.length
      if ed = [] ∨ rest3 ≠ [] then none
      else if neg then some (q / (10 : ℚ) ^ digitsToNat ed)
      else some (q * (10 : ℚ) ^ digitsToNat ed)
    else none

/-- Parse a full decimal numeric literal (optional sign, integer and/or
fraction digits, optional exponent); the whole list must match. -/
def parseDecLiteral (cs : List Char) : Option ℚ :=
  let (neg, cs1) :=
    match cs with
    | '+' :: r => (false, r)
    | '-' :: r => (true, r)
    | r => (false, r)
  let ip := cs1.takeWhile Char.isDigit
  let cs2 := cs1.drop ip.length
  let withSign : ℚ → ℚ := fun q => if neg then -q else q
  match cs2 with
  | '.' :: cs3 =>
    let fp := cs3.takeWhile Char.isDigit
    let cs4 := cs3.drop fp.length
    if ip = [] ∧ fp = [] then none
    else
      let q : ℚ := (digitsToNat ip : ℚ) + (digitsToNat fp : ℚ) / (10 : ℚ) ^ fp.length
      (parseExpPart q cs4).map withSign
  | _ =>
    if ip = [] then none
    else (parseExpPart (digitsToNat ip : ℚ) cs2).map withSign

/-- JavaScript `Number(string)` on the modelled subset: trimmed empty
string is 0, otherwise a decimal literal; anything else is NaN (`none`). -/
def strToNum (s : String) : Option ℚ :=
  let t := jsTrimList s.data
  if t = [] then some 0 else parseDecLiteral t

/-- JavaScript `Number(value)` with `none` standing for NaN.  Arrays
convert through their `toString`: the empty array is 0, a singleton
converts as its element (with `null`/`undefined` becoming the empty
string, hence 0), and arrays of two or more elements contain a comma
after joining and are NaN. -/
def toNumber : Value → Option ℚ
  | .vUndefined => none
  | .vNull => some 0
  | .vBool b => some (if b then 1 else 0)
  | .vNum q => some q
  | .vNaN => none
  | .vStr s => strToNum s
  | .vObj _ => none
  | .vArr [] => some 0
  | .vArr [x] =>
    match x with
    | .vUndefined => some 0
    | .vNull => some 0
    | .vNum q => some q
    | .vNaN => none
    | .vStr s => strToNum s
    | .vBool _ => none
    | .vObj _ => none
    | .vArr ys => toNumber (.vArr ys)
  | .vArr (_ :: _ :: _) => none

/-- Parsed JSON values (the result type of `JSON.parse`). -/
inductive Json where
  | null
  | bool (b : Bool)
  | num (q : ℚ)
  | str (s : String)
  | arr (elems : List Json)
  | obj (members : List (String × Json))

/-- JSON insignificant whitespace. -/
def skipWsJ (cs : List Char) : List Char :=
  cs.dropWhile (fun c => c == ' ' || c == '\t' || c == '\n' || c == '\r')

/-- Parse the body of a JSON string literal after the opening quote; the
accumulator collects characters in reverse. -/
def parseStrJ : List Char → List Char → Option (String × List Char)
  | acc, '"' :: rest => some (String.mk acc.reverse, rest)
  | acc, '\\' :: e :: rest =>
    match e with
    | '"' => parseStrJ ('"' :: acc) rest
    | '\\' => parseStrJ ('\\' :: acc) rest
    | '/' => parseStrJ ('/' :: acc) rest
    | 'b' => parseStrJ ('\x08' :: acc) rest
    | 'f' => parseStrJ ('\x0c' :: acc) rest
    | 'n' => parseStrJ ('\n' :: acc) rest
    | 'r' => parseStrJ ('\r' :: acc) rest
    | 't' => parseStrJ ('\t' :: acc) rest
    | 'u' =>
      match rest with
      | h1 :: h2 :: h3 :: h4 :: rest2 =>
        let isHex : Char → Bool := fun c =>
          c.isDigit || ('a' ≤ c && c ≤ 'f') || ('A' ≤ c && c ≤ 'F')
        if isHex h1 && isHex h2 && isHex h3 && isHex h4 then
          let hv : Char → Nat := fun c =>
            if c.isDigit then digitVal c
            else if c ≤ 'F' then c.toNat - 'A'.toNat + 10
            else c.toNat - 'a'.toNat + 10
          parseStrJ (Char.ofNat (((hv h1 * 16 + hv h2) * 16 + hv h3) * 16 + hv h4) :: acc) rest2
        else none
      | _ => none
    | _ => none
  | acc, c :: rest =>
    if c.toNat < 32 then none else parseStrJ (c :: acc) rest
  | _, [] => none

/-- Parse a JSON number at the head of the input (strict JSON grammar:
no leading plus, no leading zeros, digits required around the point). -/
def parseNumJ (cs : List Char) : Option (ℚ × List Char) :=
  let (neg, cs1) := match cs with
    | '-' :: r => (true, r)
    | r => (false, r)
  let ip := cs1.takeWhile Char.isDigit
  let cs2 := cs1.drop ip.length
  if ip = [] then none
  else if ip.length > 1 ∧ ip.head? = some '0' then none
  else
    let intVal : ℚ := (digitsToNat ip : ℚ)
    let (mant, cs3) : ℚ × List Char :=
      match cs2 with
      | '.' :: c3 =>
        let fp := c3.takeWhile Char.isDigit
        (intVal + (digitsToNat fp : ℚ) / (10 : ℚ) ^ fp.length, c3.drop fp.length)
      | _ => (intVal, cs2)
    let fracOk : Bool := match cs2 with
      | '.' :: c3 => !(c3.takeWhile Char.isDigit).isEmpty
      | _ => true
    if !fracOk then none
    else
      match cs3 with
      | e :: c4 =>
        if e == 'e' || e == 'E' then
          let (eneg, c5) := match c4 with
            | '+' :: r => (false, r)
            | '-' :: r => (true, r)
            | r => (false, r)
          let ed := c5.takeWhile Char.isDigit
          if ed = [] then none
          else
            let signed : ℚ := if neg then -mant else mant
            let scaled : ℚ :=
              if eneg then signed / (10 : ℚ) ^ digitsToNat ed
              else signed * (10 : ℚ) ^ digitsToNat ed
            some (scaled, c5.drop ed.length)
        else some (if neg then -mant else mant, cs3)
      | [] => some (if neg then -mant else mant, cs3)

mutual
/-- Recursive-descent JSON value parser; `fuel` bounds the recursion and
is chosen large enough for the whole input at the top entry point. -/
def parseValJ : Nat → List Char → Option (Json × List Char)
  | 0, _ => none
  | _ + 1, [] => none
  | fuel + 1, c :: rest =>
    if c == '"' then
      (parseStrJ [] rest).map (fun p => (Json.str p.1, p.2))
    else if c == 't' then
      match rest with
      | 'r' :: 'u' :: 'e' :: r2 => some (Json.bool true, r2)
      | _ => none
    else if c == 'f' then
      match rest with
      | 'a' :: 'l' :: 's' :: 'e' :: r2 => some (Json.bool false, r2)
      | _ => none
    else if c == 'n' then
      match rest with
      | 'u' :: 'l' :: 'l' :: r2 => some (Json.null, r2)
      | _ => none
    else if c == '[' then
      match skipWsJ rest with
      | ']' :: r2 => some (Json.arr [], r2)
      | r2 => (parseArrJ fuel r2).map (fun p => (Json.arr p.1, p.2))
    else if c == '\x7b' then
      match skipWsJ rest with
      | '\x7d' :: r2 => some (Json.obj [], r2)
      | r2 => (parseObjJ fuel r2).map (fun p => (Json.obj p.1, p.2))
    else if c == '-' || c.isDigit then
      (parseNumJ (c :: rest)).map (fun p => (Json.num p.1, p.2))
    else none

/-- Parse one or more comma-separated array elements up to `]`. -/
def parseArrJ : Nat → List Char → Option (List Json × List Char)
  | 0, _ => none
  | fuel + 1, cs =>
    match parseValJ fuel (skipWsJ cs) with
    | none => none
    | some (v, rest) =>
      match skipWsJ rest with
      | ',' :: r2 => (parseArrJ fuel r2).map (fun p => (v :: p.1, p.2))
      | ']' :: r2 => some ([v], r2)
      | _ => none

/-- Parse one or more comma-separated object members up to the closing
brace. -/
def parseObjJ : Nat → List Char → Option (List (String × Json) × List Char)
  | 0, _ => none
  | fuel + 1, cs =>
    match skipWsJ cs with
    | '"' :: r1 =>
      match parseStrJ [] r1 with
      | none => none
      | some (key, r2) =>
        match skipWsJ r2 with
        | ':' :: r3 =>
          match parseValJ fuel (skipWsJ r3) with
          | none => none
          | some (v, r4) =>
            match skipWsJ r4 with
            | ',' :: r5 => (parseObjJ fuel r5).map (fun p => ((key, v) :: p.1, p.2))
            | '\x7d' :: r5 => some ([(key, v)], r5)
            | _ => none
        | _ => none
    | _ => none
end

/-- The embedding of `JSON.parse`: parses a complete JSON text, returning
`none` where `JSON.parse` would throw a `SyntaxError`. -/
def jsonParse (s : String) : Option Json :=
  match parseValJ (2 * s.data.length + 8) (skipWsJ s.data) with
  | some (j, rest) => if skipWsJ rest = [] then some j else none
  | none => none

/-- Whether a string is accepted by `JSON.parse`. -/
def jsonParses (s : String) : Bool :=
  (jsonParse s).isSome

/-- The ValidationError value type of the engine (the `type` field holds
the error-kind tag string used by the route, e.g. `"duplicateId"`). -/
structure ValidationError where
  id : String
  type : String
  message : String
  severity : String
  entityType : String
  rowIndex : Nat
  columnName : String
  suggestions : List String
deriving DecidableEq

/-- Run an at-most-one-error-per-row check over a collection, visiting
rows in order with their indices (the `data.forEach((row, index) => ...)`
pattern shared by the per-row rules of the route). -/
def perRowFrom (f : Nat → Row → Option ValidationError) : Nat → List Row → List ValidationError
  | _, [] => []
  | i, r :: rs =>
    match f i r with
    | some e => e :: perRowFrom f (i + 1) rs
    | none => perRowFrom f (i + 1) rs

def perRow (data : List Row) (f : Nat → Row → Option ValidationError) : List ValidationError :=
  perRowFrom f 0 data

/-- Rule 1 of the catalog, `validateRequiredColumns`: column presence is
decided from the keys of the first row; at most one aggregate error per
entity. -/
def validateRequiredColumns (data : List Row) (entityType : String)
    (requiredColumns : List String) : List ValidationError :=
  match data with
  | [] => []
  | r0 :: _ =>
    let availableColumns := r0.map Prod.fst
    let missingColumns := requiredColumns.filter (fun col => !(availableColumns.contains col))
    match missingColumns with
    | [] => []
    | c :: _ =>
      [{ id := "missing-columns-" ++ entityType
         type := "missingColumns"
         message := "Missing required columns: " ++ String.intercalate ", " missingColumns
         severity := "error"
         entityType := entityType
         rowIndex := 0
         columnName := c
         suggestions := ["Add columns: " ++ String.intercalate ", " missingColumns] }]

/-- The duplicate-identifier error pushed by `validateUniqueIds` at a row. -/
def dupIdError (entityType idColumn : String) (index : Nat) (idv : Value) : ValidationError :=
  { id := "duplicate-id-" ++ entityType ++ "-" ++ toString index
    type := "duplicateId"
    message := "Duplicate " ++ idColumn ++ ": " ++ jsDisplay idv
    severity := "error"
    entityType := entityType
    rowIndex := index
    columnName := idColumn
    suggestions := ["Change " ++ idColumn ++ " to a unique value"] }

/-- The `forEach` body of `validateUniqueIds`: `ids` is the set of
identifier values seen so far (only truthy identifiers are recorded, and
a duplicate occurrence is not re-added, exactly as in the source). -/
def uniqGo (entityType idColumn : String) : List Row → Nat → List Value → List ValidationError
  | [], _, _ => []
  | row :: rest, index, ids =>
    let idv := rowGet row idColumn
    if idv.truthy then
      if ids.any (fun w => sameValueZero w idv) then
        dupIdError entityType idColumn index idv :: uniqGo entityType idColumn rest (index + 1) ids
      else
        uniqGo entityType idColumn rest (index + 1) (idv :: ids)
    else
      uniqGo entityType idColumn rest (index + 1) ids

/-- Rule 2 of the catalog, `validateUniqueIds`. -/
def validateUniqueIds (data : List Row) (entityType idColumn : String) : List ValidationError :=
  uniqGo entityType idColumn data 0 []

/-- Rule 3 of the catalog, `validateArrayFields`: a present field must be
an array, and its elements must have the expected primitive type (with a
NaN check when numbers are expected). -/
def validateArrayFields (data : List Row) (entityType fieldName expectedType : String) :
    List ValidationError :=
  perRow data fun index row =>
    match rowGet row fieldName with
    | .vUndefined => none
    | .vNull => none
    | .vArr elems =>
      let invalidElements := elems.filter fun item =>
        if expectedType == "number" then
          !(item.typeof == "number") || (match item with | .vNaN => true | _ => false)
        else
          !(item.typeof == expectedType)
      match invalidElements with
      | [] => none
      | _ :: _ =>
        some { id := "invalid-array-elements-" ++ entityType ++ "-" ++ toString index ++ "-" ++ fieldName
               type := "invalidArrayElements"
               message := fieldName ++ " contains invalid " ++ expectedType ++ " values: " ++
                 jsJoin ", " invalidElements
               severity := "error"
               entityType := entityType
               rowIndex := index
               columnName := fieldName
               suggestions := ["Ensure all " ++ fieldName ++ " values are valid " ++ expectedType ++ "s"] }
    | _ =>
      some { id := "malformed-array-" ++ entityType ++ "-" ++ toString index ++ "-" ++ fieldName
             type := "malformedArray"
             message := fieldName ++ " should be an array"
             severity := "error"
             entityType := entityType
             rowIndex := index
             columnName := fieldName
             suggestions := ["Convert " ++ fieldName ++ " to array format"] }

/-- Rule 4a of the catalog, `validateRange`: a present field must coerce
to a number inside `[minV, maxV]`. -/
def validateRange (data : List Row) (entityType fieldName : String) (minV maxV : ℚ) :
    List ValidationError :=
  perRow data fun index row =>
    match rowGet row fieldName with
    | .vUndefined => none
    | .vNull => none
    | v =>
      let bad := match toNumber v with
        | none => true
        | some n => n < minV ∨ n > maxV
      if bad then
        some { id := "out-of-range-" ++ entityType ++ "-" ++ toString index ++ "-" ++ fieldName
               type := "outOfRange"
               message := fieldName ++ " must be between " ++ toString minV ++ " and " ++
                 toString maxV ++ ", got: " ++ jsDisplay v
               severity := "error"
               entityType := entityType
               rowIndex := index
               columnName := fieldName
               suggestions := ["Set " ++ fieldName ++ " to a value between " ++ toString minV ++
                 " and " ++ toString maxV] }
      else none

/-- Rule 4b of the catalog, `validateMinValue`. -/
def validateMinValue (data : List Row) (entityType fieldName : String) (minV : ℚ) :
    List ValidationError :=
  perRow data fun index row =>
    match rowGet row fieldName with
    | .vUndefined => none
    | .vNull => none
    | v =>
      let bad := match toNumber v with
        | none => true
        | some n => n < minV
      if bad then
        some { id := "below-minimum-" ++ entityType ++ "-" ++ toString index ++ "-" ++ fieldName
               type := "belowMinimum"
               message := fieldName ++ " must be at least " ++ toString minV ++ ", got: " ++ jsDisplay v
               severity := "error"
               entityType := entityType
               rowIndex := index
               columnName := fieldName
               suggestions := ["Set " ++ fieldName ++ " to " ++ toString minV ++ " or higher"] }
      else none

/-- Rule 5 of the catalog, `validateJSON`: a truthy string field must be
accepted by `JSON.parse`. -/
def validateJSON (data : List Row) (entityType fieldName : String) : List ValidationError :=
  perRow data fun index row =>
    match rowGet row fieldName with
    | .vStr s =>
      if s ≠ "" ∧ ¬ jsonParses s then
        some { id := "invalid-json-" ++ entityType ++ "-" ++ toString index ++ "-" ++ fieldName
               type := "invalidJSON"
               message := fieldName ++ " contains invalid JSON"
               severity := "error"
               entityType := entityType
               rowIndex := index
               columnName := fieldName
               suggestions := ["Fix JSON syntax or use empty object \x7b\x7d"] }
      else none
    | _ => none

/-- The error pushed by `validateTaskReferences` for a client row. -/
def unknownRefError (index : Nat) (unknownTasks : List Value) : ValidationError :=
  { id := "unknown-task-refs-" ++ toString index
    type := "unknownReferences"
    message := "Unknown task references: " ++ jsJoin ", " unknownTasks
    severity := "error"
    entityType := "clients"
    rowIndex := index
    columnName := "RequestedTaskIDs"
    suggestions := ["Remove unknown task IDs or add missing tasks"] }

/-- Rule 6 of the catalog, `validateTaskReferences`: every requested task
id of a client must be in the set of truthy task ids; the rule is skipped
when either collection is empty. -/
def validateTaskReferences (clients tasks : List Row) : List ValidationError :=
  if clients.length = 0 ∨ tasks.length = 0 then []
  else
    let taskIds : List Value := (tasks.map (fun t => rowGet t "TaskID")).filter Value.truthy
    perRow clients fun index client =>
      match rowGet client "RequestedTaskIDs" with
      | .vArr requestedTasks =>
        let unknownTasks := requestedTasks.filter
          (fun taskId => !(taskIds.any (fun w => sameValueZero w taskId)))
        match unknownTasks with
        | [] => none
        | _ :: _ => some (unknownRefError index unknownTasks)
      | _ => none

/-- Rule 7 of the catalog, `validateWorkerCapacity` (warning severity):
fires when `AvailableSlots` is an array, `MaxLoadPerPhase` is a number
and the slot count is below the load (a NaN load compares false and
produces no warning, as in the source). -/
def validateWorkerCapacity (workers : List Row) : List ValidationError :=
  perRow workers fun index worker =>
    match rowGet worker "AvailableSlots", rowGet worker "MaxLoadPerPhase" with
    | .vArr availableSlots, .vNum maxLoad =>
      if (availableSlots.length : ℚ) < maxLoad then
        some { id := "overloaded-worker-" ++ toString index
               type := "overloadedWorker"
               message := "Worker has " ++ toString availableSlots.length ++
                 " available slots but MaxLoadPerPhase is " ++ toString maxLoad
               severity := "warning"
               entityType := "workers"
               rowIndex := index
               columnName := "MaxLoadPerPhase"
               suggestions := ["Reduce MaxLoadPerPhase to " ++ toString availableSlots.length ++
                 " or add more available slots"] }
      else none
    | _, _ => none

/-- Rule 8 of the catalog, `validateSkillCoverage` (warning severity):
every skill required by a task must appear in the union of the workers'
skill arrays; skipped when either collection is empty. -/
def validateSkillCoverage (workers tasks : List Row) : List ValidationError :=
  if workers.length = 0 ∨ tasks.length = 0 then []
  else
    let availableSkills : List Value :=
      workers.foldl (fun acc worker =>
        match rowGet worker "Skills" with
        | .vArr skills => acc ++ skills
        | _ => acc) []
    perRow tasks fun index task =>
      match rowGet task "RequiredSkills" with
      | .vArr requiredSkills =>
        let uncoveredSkills := requiredSkills.filter
          (fun skill => !(availableSkills.any (fun w => sameValueZero w skill)))
        match uncoveredSkills with
        | [] => none
        | _ :: _ =>
          some { id := "uncovered-skills-" ++ toString index
                 type := "uncoveredSkills"
                 message := "Required skills not available in worker pool: " ++
                   jsJoin ", " uncoveredSkills
                 severity := "warning"
                 entityType := "tasks"
                 rowIndex := index
                 columnName := "RequiredSkills"
                 suggestions := ["Add workers with these skills or remove skill requirements"] }
      | _ => none

/-- Rule group 1: required-column presence for the three entities. -/
def ruleGroup1 (clients workers tasks : List Row) : List ValidationError :=
  validateRequiredColumns clients "clients" ["ClientID", "Name", "PriorityLevel"] ++
  validateRequiredColumns workers "workers" ["WorkerID", "Name", "Skills", "AvailableSlots"] ++
  validateRequiredColumns tasks "tasks" ["TaskID", "Name", "Duration", "RequiredSkills"]

/-- Rule group 2: identifier uniqueness for the three entities. -/
def ruleGroup2 (clients workers tasks : List Row) : List ValidationError :=
  validateUniqueIds clients "clients" "ClientID" ++
  validateUniqueIds workers "workers" "WorkerID" ++
  validateUniqueIds tasks "tasks" "TaskID"

/-- Rule group 3: well-formedness of array-typed fields. -/
def ruleGroup3 (clients workers tasks : List Row) : List ValidationError :=
  validateArrayFields workers "workers" "AvailableSlots" "number" ++
  validateArrayFields workers "workers" "Skills" "string" ++
  validateArrayFields tasks "tasks" "RequiredSkills" "string" ++
  validateArrayFields tasks "tasks" "PreferredPhases" "number"

/-- Rule group 4: numeric range and minimum-value checks. -/
def ruleGroup4 (clients workers tasks : List Row) : List ValidationError :=
  validateRange clients "clients" "PriorityLevel" 1 5 ++
  validateMinValue tasks "tasks" "Duration" 1 ++
  validateMinValue tasks "tasks" "MaxConcurrent" 1 ++
  validateMinValue workers "workers" "MaxLoadPerPhase" 1

/-- Rule group 5: JSON attribute blobs. -/
def ruleGroup5 (clients workers tasks : List Row) : List ValidationError :=
  validateJSON clients "clients" "AttributesJSON" ++
  validateJSON workers "workers" "AttributesJSON" ++
  validateJSON tasks "tasks" "AttributesJSON"

/-- Rule group 6: cross-entity task references. -/
def ruleGroup6 (clients workers tasks : List Row) : List ValidationError :=
  validateTaskReferences clients tasks

/-- Rule group 7: worker capacity. -/
def ruleGroup7 (clients workers tasks : List Row) : List ValidationError :=
  validateWorkerCapacity workers

/-- Rule group 8: skill coverage. -/
def ruleGroup8 (clients workers tasks : List Row) : List ValidationError :=
  validateSkillCoverage workers tasks

/-- The rule catalog in declaration order. -/
def ruleGroups (clients workers tasks : List Row) : List (List ValidationError) :=
  [ruleGroup1 clients workers tasks, ruleGroup2 clients workers tasks,
   ruleGroup3 clients workers tasks, ruleGroup4 clients workers tasks,
   ruleGroup5 clients workers tasks, ruleGroup6 clients workers tasks,
   ruleGroup7 clients workers tasks, ruleGroup8 clients workers tasks]

/-- The validation engine: the body of the `POST` handler of the validate
route, which pushes the errors of the eighteen rule invocations into one
list in program order and returns it. -/
def validate (clients workers tasks : List Row) : List ValidationError :=
  ruleGroup1 clients workers tasks ++ ruleGroup2 clients workers tasks ++
  ruleGroup3 clients workers tasks ++ ruleGroup4 clients workers tasks ++
  ruleGroup5 clients workers tasks ++ ruleGroup6 clients workers tasks ++
  ruleGroup7 clients workers tasks ++ ruleGroup8 clients workers tasks

/-- Index of the first occurrence of a character (`String.indexOf`). -/
def idxOfChar (c : Char) : List Char → Option Nat
  | [] => none
  | x :: xs => if x = c then some 0 else (idxOfChar c xs).map (· + 1)

/-- Index of the last occurrence of a character (`String.lastIndexOf`). -/
def lastIdxOfChar (c : Char) (cs : List Char) : Option Nat :=
  (idxOfChar c cs.reverse).map (fun i => cs.length - 1 - i)

/-- Skip a run of regex whitespace, remembering whether the last consumed
character was a line terminator (so that a following `^` anchor matches). -/
def skipWsRun : List Char → Bool → Bool × List Char
  | [], lastNl => (lastNl, [])
  | c :: cs, lastNl =>
    if isJsSpace c then skipWsRun cs (c == '\n' || c == '\r')
    else (lastNl, c :: cs)

theorem skipWsRun_length_le : ∀ (cs : List Char) (b : Bool), (skipWsRun cs b).2.length ≤ cs.length := by
  intro cs
  induction cs with
  | nil => intro b; simp [skipWsRun]
  | cons c cs ih =>
    intro b
    by_cases h : isJsSpace c = true
    · simpa [skipWsRun, h] using Nat.le_succ_of_le (ih _)
    · simp [skipWsRun, h]

/-- Prefix test on character lists. -/
def hasPrefixL : List Char → List Char → Bool
  | [], _ => true
  | _ :: _, [] => false
  | p :: ps, c :: cs => p == c && hasPrefixL ps cs

/-- Substring test on character lists (JavaScript `String.includes`). -/
def hasInfixL (pat : List Char) : List Char → Bool
  | [] => pat.isEmpty
  | c :: cs => hasPrefixL pat (c :: cs) || hasInfixL pat cs

def strIncludes (s pat : String) : Bool := hasInfixL pat.data s.data

/-- The characters of the ` ```json ` opening fence. -/
def fenceJson : List Char := ['\x60', '\x60', '\x60', 'j', 's', 'o', 'n']

/-- The characters of a bare ` ``` ` fence. -/
def fenceBare : List Char := ['\x60', '\x60', '\x60']

/-- One global multiline pass of `replace(/^<pat>\s*/gm, "")` for a
literal pattern followed by `\s*`: at each line start the pattern and the
whitespace run after it are deleted; `fuel` dominates the input length. -/
def stripFenceGo (pat : List Char) : Nat → Bool → List Char → List Char
  | 0, _, cs => cs
  | _ + 1, _, [] => []
  | fuel + 1, atStart, x :: xs =>
    if atStart && hasPrefixL pat (x :: xs) then
      let p := skipWsRun ((x :: xs).drop pat.length) false
      stripFenceGo pat fuel p.1 p.2
    else
      x :: stripFenceGo pat fuel (x == '\n' || x == '\r') xs

/-- One global multiline pass of `replace(/\s*```$/gm, "")`: a whitespace
run followed by a literal ` ``` ` at a line end (end of string or before a
line terminator) is deleted. -/
def stripTrailFenceGo : Nat → List Char → List Char
  | 0, cs => cs
  | _ + 1, [] => []
  | fuel + 1, x :: xs =>
    let rest := (x :: xs).drop ((x :: xs).takeWhile isJsSpace).length
    if hasPrefixL fenceBare rest &&
        ((rest.drop 3).isEmpty || (rest.drop 3).head? == some '\n' ||
          (rest.drop 3).head? == some '\r') then
      stripTrailFenceGo fuel (rest.drop 3)
    else
      x :: stripTrailFenceGo fuel xs

def stripJsonFence (cs : List Char) : List Char := stripFenceGo fenceJson cs.length true cs

def stripBareFence (cs : List Char) : List Char := stripFenceGo fenceBare cs.length true cs

def stripTrailFence (cs : List Char) : List Char := stripTrailFenceGo cs.length cs

/-- Discard any prefix before the first `{` when one exists beyond
position 0 (`if (firstBrace > 0) jsonStr = jsonStr.substring(firstBrace)`). -/
def cutBeforeBrace (cs : List Char) : List Char :=
  match idxOfChar '\x7b' cs with
  | some firstBrace => if firstBrace > 0 then cs.drop firstBrace else cs
  | none => cs

/-- Discard any suffix after the last `}` when one exists
(`if (lastBrace !== -1) jsonStr = jsonStr.substring(0, lastBrace + 1)`). -/
def cutAfterBrace (cs : List Char) : List Char :=
  match lastIdxOfChar '\x7d' cs with
  | some lastBrace => cs.take (lastBrace + 1)
  | none => cs

/-- The response-cleaning step of `OllamaClient.generateStructuredOutput`:
trim, cut before the first `{` when it is not at position 0, cut after the
last `}`, then strip the three code-fence patterns. -/
def cleanResponse (response : String) : String :=
  String.mk (stripTrailFence (stripBareFence (stripJsonFence
    (cutAfterBrace (cutBeforeBrace (jsTrimList response.data))))))

/-- Line-terminator characters recognised by the `m` (multiline) regex flag. -/
def isNlChar (c : Char) : Bool := c == '\n' || c == '\r'

/-- Adjacent characters `a` then `c` never put a backquote right after a
line terminator nor right before one: on such text the multiline fence
regexes find no anchored match beyond the endpoints. -/
def fenceFree (a c : Char) : Prop :=
  ¬(isNlChar a = true ∧ c = '\x60') ∧ ¬(a = '\x60' ∧ isNlChar c = true)

instance (a c : Char) : Decidable (fenceFree a c) :=
  decidable_of_iff (¬(isNlChar a = true ∧ c = '\x60') ∧ ¬(a = '\x60' ∧ isNlChar c = true))
    Iff.rfl

/-- A character that is neither a backquote nor a line terminator. -/
def plainChar (c : Char) : Prop := c ≠ '\x60' ∧ isNlChar c = false

instance (c : Char) : Decidable (plainChar c) :=
  decidable_of_iff (c ≠ '\x60' ∧ isNlChar c = false) Iff.rfl

/-- The whitespace class skipped between JSON tokens. -/
def wsJChar (c : Char) : Bool := c == ' ' || c == '\t' || c == '\n' || c == '\r'

/-- The characters a JSON number token is made of. -/
def numChar (c : Char) : Prop :=
  c.isDigit = true ∨ c = '-' ∨ c = '+' ∨ c = '.' ∨ c = 'e' ∨ c = 'E'

/-- Invariant of the characters consumed by the value parser: they chain
fence-free and both endpoints are plain characters. -/
def goodSeg (seg : List Char) : Prop :=
  seg.Chain' fenceFree ∧ seg ≠ [] ∧
    (∀ a ∈ seg.head?, plainChar a) ∧ ∀ a ∈ seg.getLast?, plainChar a

/-- Invariant of the characters consumed by the array-tail and object-tail
parsers: fence-free chain, no leading backquote, the closing delimiter
last. -/
def goodDelim (close : Char) (seg : List Char) : Prop :=
  seg.Chain' fenceFree ∧ (∀ a ∈ seg.head?, a ≠ '\x60') ∧ seg.getLast? = some close

/-- A thrown JavaScript error, identified by its message. -/
structure JsError where
  message : String
deriving DecidableEq

/-- Outcome of one provider text-generation call: the returned text, or a
thrown error. -/
inductive GenOutcome where
  | ok (text : String)
  | err (e : JsError)

/-- Observable behaviour of one mediator invocation: its result, the
number of provider calls made, and the sleep durations (milliseconds)
awaited between attempts, in order. -/
structure MedTrace (T : Type) where
  result : Except JsError T
  calls : Nat
  delays : List ℚ

/-- Error surfacing a `JSON.parse` failure inside the ollama/openai paths. -/
def jsonSyntaxError : JsError := ⟨"SyntaxError: unexpected token in JSON"⟩

/-- Error surfacing a schema (`zod`) validation failure. -/
def schemaValidationError : JsError := ⟨"ZodError: response does not match the target schema"⟩

namespace Ollama

/-- The `maxAttempts = 3` constant of `OllamaClient.generateStructuredOutput`. -/
def maxAttempts : Nat := 3

/-- The fixed 1000 ms pause between ollama attempts. -/
def attemptDelay : ℚ := 1000

/-- The attempt loop of `OllamaClient.generateStructuredOutput`.  The
provider call (`generateText`) is abstracted as `backend`, indexed by the
attempt number; `check` is the `schema.parse` step on parsed JSON.  Any
throw inside an attempt — a transport error from `generateText`, a JSON
syntax error or a schema mismatch — is caught, recorded as `lastError`,
and retried while attempts remain; `remaining` counts attempts still
allowed and equals `maxAttempts - attempt + 1` at the entry point. -/
def go {T : Type} (backend : Nat → GenOutcome) (check : Json → Option T) :
    Nat → Nat → Option JsError → Nat → List ℚ → MedTrace T
  | _, 0, lastError, calls, delays =>
    ⟨.error (lastError.getD ⟨"Failed to generate valid structured output"⟩), calls, delays⟩
  | attempt, remaining + 1, _, calls, delays =>
    let next : JsError → MedTrace T := fun e =>
      go backend check (attempt + 1) remaining (some e) (calls + 1)
        (delays ++ if 0 < remaining then [attemptDelay] else [])
    match backend attempt with
    | .err e => next e
    | .ok response =>
      match jsonParse (cleanResponse response) with
      | none => next jsonSyntaxError
      | some parsed =>
        match check parsed with
        | some result => ⟨.ok result, calls + 1, delays⟩
        | none => next schemaValidationError

/-- The embedding of `OllamaClient.generateStructuredOutput` (the prompt
augmentation does not affect the observable retry behaviour and is folded
into the abstract backend). -/
def generateStructuredOutput {T : Type} (backend : Nat → GenOutcome)
    (check : Json → Option T) : MedTrace T :=
  go backend check 1 maxAttempts none 0 []

end Ollama

namespace Gemini

/-- The `maxRetries = 5` constant of the gemini `generateStructuredOutput`. -/
def maxRetries : Nat := 5

/-- The error thrown when the gemini response fails `JSON.parse` or the
schema check (the inner catch rethrows this fixed message). -/
def parseFailure : JsError := ⟨"Failed to parse structured output from AI"⟩

/-- Whether a caught error is recognised as provider rate limiting. -/
def isRateLimit (e : JsError) : Bool := strIncludes e.message "429 Too Many Requests"

/-- Exponential backoff with jitter: `retryCount` is the value after the
increment, `r` models `Math.random()`.  The formula is
`min(60000, 1000 * 2^retryCount * (0.8 + r * 0.4))`. -/
def backoff (retryCount : Nat) (r : ℚ) : ℚ :=
  min 60000 (1000 * 2 ^ retryCount * (4 / 5 + r * 2 / 5))

/-- The retry loop of the gemini `generateStructuredOutput`.  A response
that arrives is parsed and schema-checked; failure of either throws
`parseFailure`, which is not a rate-limit message and therefore
propagates.  A thrown error whose message contains the rate-limit marker
increments the retry count, sleeps the backoff delay and loops; any other
thrown error propagates.  `remaining = maxRetries - retryCount` at entry,
and `rand k` models the `Math.random()` draw of the k-th sleep. -/
def go {T : Type} (backend : Nat → GenOutcome) (check : Json → Option T) (rand : Nat → ℚ) :
    Nat → Nat → Nat → Option JsError → List ℚ → MedTrace T
  | 0, callIdx, _, lastError, delays =>
    ⟨.error (lastError.getD ⟨"Failed after maximum retry attempts"⟩), callIdx, delays⟩
  | remaining + 1, callIdx, retryCount, _, delays =>
    match backend callIdx with
    | .ok responseText =>
      match (jsonParse responseText).bind check with
      | some v => ⟨.ok v, callIdx + 1, delays⟩
      | none => ⟨.error parseFailure, callIdx + 1, delays⟩
    | .err e =>
      if isRateLimit e then
        go backend check rand remaining (callIdx + 1) (retryCount + 1) (some e)
          (delays ++ [backoff (retryCount + 1) (rand retryCount)])
      else ⟨.error e, callIdx + 1, delays⟩

/-- The embedding of the gemini `generateStructuredOutput`. -/
def generateStructuredOutput {T : Type} (backend : Nat → GenOutcome)
    (check : Json → Option T) (rand : Nat → ℚ) : MedTrace T :=
  go backend check rand maxRetries 0 0 none []

end Gemini

namespace OpenAIChat

/-- The openai branch of the dispatcher: one chat-completion call, then
`JSON.parse` and `schema.parse` with no catch, so every failure
propagates after a single provider call. -/
def generateStructuredOutput {T : Type} (backend : Nat → GenOutcome)
    (check : Json → Option T) : MedTrace T :=
  match backend 0 with
  | .err e => ⟨.error e, 1, []⟩
  | .ok response =>
    match jsonParse response with
    | none => ⟨.error jsonSyntaxError, 1, []⟩
    | some parsed =>
      match check parsed with
      | some v => ⟨.ok v, 1, []⟩
      | none => ⟨.error schemaValidationError, 1, []⟩

end OpenAIChat

/-- The provider union type `AIProvider` of `ai-provider.ts`. -/
inductive ProviderKind where
  | gemini
  | ollama
  | openai
deriving DecidableEq

/-- The dispatcher `generateStructuredOutput` of `ai-provider.ts`,
switching on the configured provider. -/
def generateStructured {T : Type} (provider : ProviderKind) (backend : Nat → GenOutcome)
    (check : Json → Option T) (rand : Nat → ℚ) : MedTrace T :=
  match provider with
  | .ollama => Ollama.generateStructuredOutput backend check
  | .gemini => Gemini.generateStructuredOutput backend check rand
  | .openai => OpenAIChat.generateStructuredOutput backend check

section PerRowLemmas

variable {f : Nat → Row → Option ValidationError}

theorem perRowFrom_mem_ge (hf : ∀ i r e, f i r = some e → e.rowIndex = i) :
    ∀ (data : List Row) (i : Nat) (e : ValidationError),
      e ∈ perRowFrom f i data → i ≤ e.rowIndex := by
  intro data
  induction data with
  | nil => intro i e h; simp [perRowFrom] at h
  | cons r rs ih =>
    intro i e h
    rw [perRowFrom] at h
    cases hfe : f i r with
    | none =>
      rw [hfe] at h
      exact Nat.le_of_succ_le (ih (i + 1) e h)
    | some e0 =>
      rw [hfe] at h
      rcases List.mem_cons.mp h with rfl | hmem
      · exact Nat.le_of_eq (hf i r e hfe).symm
      · exact Nat.le_of_succ_le (ih (i + 1) e hmem)

theorem perRowFrom_pairwise (hf : ∀ i r e, f i r = some e → e.rowIndex = i) :
    ∀ (data : List Row) (i : Nat),
      ((perRowFrom f i data).map (fun e => e.rowIndex)).Pairwise (· < ·) := by
  intro data
  induction data with
  | nil => intro i; simp [perRowFrom]
  | cons r rs ih =>
    intro i
    rw [perRowFrom]
    cases hfe : f i r with
    | none => exact ih (i + 1)
    | some e0 =>
      rw [List.map_cons, List.pairwise_cons]
      refine ⟨?_, ih (i + 1)⟩
      intro a ha
      rcases List.mem_map.mp ha with ⟨e1, he1, rfl⟩
      have h1 : i + 1 ≤ e1.rowIndex := perRowFrom_mem_ge hf rs (i + 1) e1 he1
      have h0 : e0.rowIndex = i := hf i r e0 hfe
      omega

/-- Errors of a `perRow` rule invocation appear in strictly ascending
row-index order. -/
theorem perRow_pairwise (hf : ∀ i r e, f i r = some e → e.rowIndex = i)
    (data : List Row) :
    ((perRow data f).map (fun e => e.rowIndex)).Pairwise (· < ·) :=
  perRowFrom_pairwise hf data 0

theorem perRowFrom_mem_of_apply :
    ∀ (data : List Row) (k i : Nat) (e : ValidationError),
      i < data.length → f (k + i) (rowAt data i) = some e → e ∈ perRowFrom f k data := by
  intro data
  induction data with
  | nil => intro k i e h; simp at h
  | cons r rs ih =>
    intro k i e hlen happ
    rw [perRowFrom]
    cases i with
    | zero =>
      rw [rowAt, List.getD_cons_zero] at happ
      rw [Nat.add_zero] at happ
      rw [happ]
      exact List.mem_cons_self _ _
    | succ j =>
      have happ' : f ((k + 1) + j) (rowAt rs j) = some e := by
        rw [rowAt, List.getD_cons_succ] at happ
        rw [show (k + 1) + j = k + (j + 1) by omega]
        exact happ
      have hmem := ih (k + 1) j e (by simpa using Nat.lt_of_succ_lt_succ hlen) happ'
      cases f k r with
      | none => exact hmem
      | some e0 => exact List.mem_cons_of_mem _ hmem

/-- A row on which the per-row check fires contributes its error to the
rule output. -/
theorem perRow_mem_of_apply {data : List Row} {i : Nat} {e : ValidationError}
    (hlen : i < data.length) (happ : f i (rowAt data i) = some e) :
    e ∈ perRow data f :=
  perRowFrom_mem_of_apply data 0 i e hlen (by simpa using happ)

end PerRowLemmas

/-- Membership of a value in the seen-identifier set (`ids.has(id)`). -/
def seenB (ids : List Value) (v : Value) : Bool :=
  ids.any (fun w => sameValueZero w v)

theorem seenB_of_svz {ids : List Value} {v w : Value} (h : seenB ids v = true)
    (hvw : sameValueZero v w = true) : seenB ids w = true := by
  rcases List.any_eq_true.mp h with ⟨x, hx, hsvz⟩
  exact List.any_eq_true.mpr ⟨x, hx, sameValueZero_trans hsvz hvw⟩

/-- Row `t` of `rest` carries a truthy identifier already seen, either in
the carried set `ids` or at an earlier row of `rest`. -/
def dupPredFrom (idColumn : String) (ids : List Value) (rest : List Row) (t : Nat) : Bool :=
  (idAt rest idColumn t).truthy &&
  (seenB ids (idAt rest idColumn t) ||
   (List.range t).any (fun u => sameValueZero (idAt rest idColumn u) (idAt rest idColumn t)))

/-- Row `i` of `data` carries a truthy identifier that already occurred at
an earlier row. -/
def dupAt (data : List Row) (idColumn : String) (i : Nat) : Bool :=
  (idAt data idColumn i).truthy &&
  (List.range i).any (fun j => sameValueZero (idAt data idColumn j) (idAt data idColumn i))

theorem idAt_cons_zero (r : Row) (rs : List Row) (c : String) :
    idAt (r :: rs) c 0 = rowGet r c := rfl

theorem idAt_cons_succ (r : Row) (rs : List Row) (c : String) (t : Nat) :
    idAt (r :: rs) c (t + 1) = idAt rs c t := rfl

theorem dupPredFrom_cons_succ (idCol : String) (ids : List Value) (r : Row) (rs : List Row)
    (t : Nat) :
    dupPredFrom idCol ids (r :: rs) (t + 1) =
      ((idAt rs idCol t).truthy &&
        (seenB ids (idAt rs idCol t) ||
          (sameValueZero (rowGet r idCol) (idAt rs idCol t) ||
            (List.range t).any (fun u => sameValueZero (idAt rs idCol u) (idAt rs idCol t))))) := by
  rw [dupPredFrom, idAt_cons_succ, List.range_succ_eq_map, List.any_cons]
  congr 2
  rw [idAt_cons_zero, List.any_map]
  rfl

theorem uniqGo_map_rowIndex (eT idCol : String) :
    ∀ (rest : List Row) (k : Nat) (ids : List Value),
      (uniqGo eT idCol rest k ids).map (fun e => e.rowIndex) =
      ((List.range rest.length).filter (dupPredFrom idCol ids rest)).map (k + ·) := by
  intro rest
  induction rest with
  | nil => intro k ids; simp [uniqGo]
  | cons r rs ih =>
    intro k ids
    have hpred0 : dupPredFrom idCol ids (r :: rs) 0 =
        ((rowGet r idCol).truthy && seenB ids (rowGet r idCol)) := by
      rw [dupPredFrom, idAt_cons_zero]
      simp
    have hmapshift :
        ∀ (l : List Nat), (l.map Nat.succ).map (k + ·) = l.map ((k + 1) + ·) := by
      intro l
      rw [List.map_map]
      exact List.map_congr_left (fun t _ => by simp [Function.comp]; omega)
    have hfm : List.filter (dupPredFrom idCol ids (r :: rs)) (List.map Nat.succ (List.range rs.length))
        = List.map Nat.succ (List.filter (dupPredFrom idCol ids (r :: rs) ∘ Nat.succ) (List.range rs.length)) :=
      List.filter_map _ _
    rw [List.length_cons, List.range_succ_eq_map, List.filter_cons, uniqGo]
    cases htruthy : (rowGet r idCol).truthy with
    | false =>
      rw [hpred0, htruthy]
      simp only [Bool.false_and, Bool.false_eq_true, if_false, hfm, hmapshift, ih (k + 1) ids]
      congr 1
      apply List.filter_congr
      intro t _
      rw [Function.comp_apply, dupPredFrom_cons_succ, dupPredFrom]
      cases hsvz : sameValueZero (rowGet r idCol) (idAt rs idCol t) with
      | false => simp
      | true =>
        have hft : (idAt rs idCol t).truthy = false :=
          (sameValueZero_truthy hsvz).symm.trans htruthy
        simp [hft]
    | true =>
      rw [hpred0, htruthy, Bool.true_and]
      cases hseen : seenB ids (rowGet r idCol) with
      | true =>
        have hseen' : (ids.any fun w => sameValueZero w (rowGet r idCol)) = true := hseen
        simp only [hseen', if_true, List.map_cons, Nat.add_zero]
        rw [hfm, hmapshift, ih (k + 1) ids]
        congr 1
        refine congrArg _ (List.filter_congr ?_)
        intro t _
        rw [Function.comp_apply, dupPredFrom_cons_succ, dupPredFrom]
        cases hsvz : sameValueZero (rowGet r idCol) (idAt rs idCol t) with
        | false => simp
        | true =>
          have habs : seenB ids (idAt rs idCol t) = true := seenB_of_svz hseen hsvz
          simp [habs]
      | false =>
        have hseen' : (ids.any fun w => sameValueZero w (rowGet r idCol)) = false := hseen
        simp only [hseen', Bool.false_eq_true, if_false]
        rw [if_pos trivial, hfm, hmapshift, ih (k + 1) (rowGet r idCol :: ids)]
        congr 1
        apply List.filter_congr
        intro t _
        rw [Function.comp_apply, dupPredFrom_cons_succ, dupPredFrom]
        have hseencons : seenB (rowGet r idCol :: ids) (idAt rs idCol t) =
            (sameValueZero (rowGet r idCol) (idAt rs idCol t) || seenB ids (idAt rs idCol t)) := by
          rw [seenB, List.any_cons]
          rfl
        rw [hseencons]
        cases sameValueZero (rowGet r idCol) (idAt rs idCol t) <;>
          cases hsw : seenB ids (idAt rs idCol t) <;>
            simp_all [seenB]

/-- The row indices reported by the uniqueness rule are exactly the rows
whose truthy identifier already occurred earlier in the collection. -/
theorem validateUniqueIds_rowIndexes (data : List Row) (eT idCol : String) :
    (validateUniqueIds data eT idCol).map (fun e => e.rowIndex) =
    (List.range data.length).filter (dupAt data idCol) := by
  rw [validateUniqueIds, uniqGo_map_rowIndex]
  have h1 : List.filter (dupPredFrom idCol [] data) (List.range data.length) =
      List.filter (dupAt data idCol) (List.range data.length) := by
    apply List.filter_congr
    intro t _
    rw [dupPredFrom, dupAt, seenB]
    simp
  rw [h1]
  have h2 : ∀ l : List Nat, l.map ((0 : Nat) + ·) = l := by
    intro l
    have : ((0 : Nat) + ·) = id := by funext t; simp
    rw [this, List.map_id]
  exact h2 _

theorem uniqGo_mem_shape (eT idCol : String) :
    ∀ (rest : List Row) (k : Nat) (ids : List Value) (e : ValidationError),
      e ∈ uniqGo eT idCol rest k ids →
      e.type = "duplicateId" ∧ e.entityType = eT ∧ e.columnName = idCol ∧
        e.severity = "error" := by
  intro rest
  induction rest with
  | nil => intro k ids e h; simp [uniqGo] at h
  | cons r rs ih =>
    intro k ids e h
    rw [uniqGo] at h
    by_cases ht : (rowGet r idCol).truthy = true
    · rw [if_pos ht] at h
      by_cases hs : (ids.any fun w => sameValueZero w (rowGet r idCol)) = true
      · rw [if_pos hs] at h
        rcases List.mem_cons.mp h with rfl | hmem
        · exact ⟨rfl, rfl, rfl, rfl⟩
        · exact ih (k + 1) ids e hmem
      · rw [if_neg hs] at h
        exact ih (k + 1) _ e h
    · rw [if_neg ht] at h
      exact ih (k + 1) ids e h

/-- Shape of errors reported by `validateUniqueIds`. -/
theorem validateUniqueIds_mem_shape {data : List Row} {eT idCol : String}
    {e : ValidationError} (h : e ∈ validateUniqueIds data eT idCol) :
    e.type = "duplicateId" ∧ e.entityType = eT ∧ e.columnName = idCol ∧
      e.severity = "error" :=
  uniqGo_mem_shape eT idCol data 0 [] e h

/-- The uniqueness rule reports row indices in strictly ascending order. -/
theorem validateUniqueIds_pairwise (data : List Row) (eT idCol : String) :
    ((validateUniqueIds data eT idCol).map (fun e => e.rowIndex)).Pairwise (· < ·) := by
  rw [validateUniqueIds_rowIndexes]
  exact (List.pairwise_lt_range data.length).sublist (List.filter_sublist _)

theorem isStr_eq_iff {v : Value} {s : String} : v.isStr s = true ↔ v = .vStr s := by
  cases v <;> simp [Value.isStr]

/-- For a non-empty identifier string `s`, the duplicate errors landing on
rows whose identifier is `s` sit exactly at every occurrence of `s` after
the first. -/
theorem uniq_per_identifier (data : List Row) (eT idCol s : String) (hs : s ≠ "") :
    ((validateUniqueIds data eT idCol).map (fun e => e.rowIndex)).filter
        (fun i => (idAt data idCol i).isStr s)
      = ((List.range data.length).filter (fun i => (idAt data idCol i).isStr s)).drop 1 := by
  rw [validateUniqueIds_rowIndexes, List.filter_filter]
  have hsorted : ((List.range data.length).filter
      (fun i => (idAt data idCol i).isStr s)).Pairwise (· < ·) :=
    (List.pairwise_lt_range data.length).sublist (List.filter_sublist _)
  cases hocc : (List.range data.length).filter (fun i => (idAt data idCol i).isStr s) with
  | nil =>
    rw [List.drop_nil]
    rw [List.filter_eq_nil_iff] at hocc
    rw [List.filter_eq_nil_iff]
    intro i hi
    simp only [Bool.and_eq_true, not_and]
    intro hstr _
    exact (hocc i hi) hstr
  | cons h t =>
    rw [List.drop_one, List.tail_cons]
    have hsorted' : (h :: t).Pairwise (· < ·) := hocc ▸ hsorted
    have hht : ∀ j ∈ t, h < j := (List.pairwise_cons.mp hsorted').1
    have hmemocc : ∀ j, j ∈ h :: t ↔
        (j ∈ List.range data.length ∧ (idAt data idCol j).isStr s = true) := by
      intro j
      rw [← hocc, List.mem_filter]
    have hhs : (idAt data idCol h).isStr s = true := ((hmemocc h).mp (List.mem_cons_self _ _)).2
    have hle : ∀ j, j ∈ List.range data.length → (idAt data idCol j).isStr s = true → h ≤ j := by
      intro j hjn hjs
      rcases List.mem_cons.mp ((hmemocc j).mpr ⟨hjn, hjs⟩) with rfl | hjt
      · exact Nat.le_refl _
      · exact Nat.le_of_lt (hht j hjt)
    have ht_eq : t = List.filter
        (fun i => decide (h < i) && (idAt data idCol i).isStr s) (List.range data.length) := by
      have h1 : List.filter (fun i => decide (h < i)) (h :: t) = t := by
        rw [List.filter_cons, if_neg (by simp : ¬(decide (h < h) = true))]
        exact List.filter_eq_self.mpr (fun j hj => by simpa using hht j hj)
      rw [← h1, ← hocc, List.filter_filter]
    rw [ht_eq]
    apply List.filter_congr
    intro i hi
    cases hstr : (idAt data idCol i).isStr s with
    | false => simp [hstr]
    | true =>
      simp only [hstr, Bool.and_true, Bool.true_and]
      have hival : idAt data idCol i = .vStr s := isStr_eq_iff.mp hstr
      rw [dupAt, hival]
      have htruthy : (Value.vStr s).truthy = true := by
        simp [Value.truthy, hs]
      rw [htruthy, Bool.true_and]
      cases hhi : decide (h < i) with
      | true =>
        rw [List.any_eq_true]
        exact ⟨h, List.mem_range.mpr (of_decide_eq_true hhi),
          by rw [sameValueZero_isStr]; exact hhs⟩
      | false =>
        rw [List.any_eq_false]
        intro j hjr
        have hji : j < i := List.mem_range.mp hjr
        have hin : i < data.length := List.mem_range.mp hi
        intro hjs
        rw [sameValueZero_isStr] at hjs
        have hhj : h ≤ j := hle j (List.mem_range.mpr (Nat.lt_trans hji hin)) hjs
        exact absurd (Nat.lt_of_le_of_lt hhj hji) (by simpa using hhi)

theorem ff_no_tick {a c : Char} (h1 : a ≠ '\x60') (h2 : c ≠ '\x60') : fenceFree a c :=
  ⟨fun hh => h2 hh.2, fun hh => h1 hh.1⟩

theorem ff_no_nl {a c : Char} (h1 : isNlChar a = false) (h2 : isNlChar c = false) :
    fenceFree a c :=
  ⟨fun hh => by rw [h1] at hh; exact Bool.false_ne_true hh.1,
   fun hh => by rw [h2] at hh; exact Bool.false_ne_true hh.2⟩

theorem ff_plain_left {a c : Char} (h : plainChar a) : fenceFree a c :=
  ⟨fun hh => by rw [h.2] at hh; exact Bool.false_ne_true hh.1, fun hh => h.1 hh.1⟩

theorem ff_plain_right {a c : Char} (h : plainChar c) : fenceFree a c :=
  ⟨fun hh => h.1 hh.2, fun hh => by rw [h.2] at hh; exact Bool.false_ne_true hh.2⟩

theorem chain'_no_tick : ∀ {l : List Char}, (∀ c ∈ l, c ≠ '\x60') → l.Chain' fenceFree := by
  intro l
  induction l with
  | nil => intro _; exact List.chain'_nil
  | cons a t ih =>
    intro h
    rw [List.chain'_cons']
    refine ⟨fun y hy => ff_no_tick (h a (List.mem_cons_self a t))
      (h y (List.mem_cons_of_mem _ (List.mem_of_mem_head? hy))),
      ih fun c hc => h c (List.mem_cons_of_mem _ hc)⟩

theorem chain'_no_nl : ∀ {l : List Char}, (∀ c ∈ l, isNlChar c = false) → l.Chain' fenceFree := by
  intro l
  induction l with
  | nil => intro _; exact List.chain'_nil
  | cons a t ih =>
    intro h
    rw [List.chain'_cons']
    refine ⟨fun y hy => ff_no_nl (h a (List.mem_cons_self a t))
      (h y (List.mem_cons_of_mem _ (List.mem_of_mem_head? hy))),
      ih fun c hc => h c (List.mem_cons_of_mem _ hc)⟩

/-- A successful prefix match decomposes the list. -/
theorem hasPrefixL_decomp : ∀ (pat cs : List Char), hasPrefixL pat cs = true →
    cs = pat ++ cs.drop pat.length := by
  intro pat
  induction pat with
  | nil => intro cs _; simp
  | cons p ps ih =>
    intro cs h
    cases cs with
    | nil => exact absurd h (by simp [hasPrefixL])
    | cons c t =>
      rw [hasPrefixL, Bool.and_eq_true, beq_iff_eq] at h
      obtain ⟨rfl, h2⟩ := h
      simpa using ih t h2

theorem getLast?_cons_of_ne {a : Char} {l : List Char} (h : l ≠ []) :
    (a :: l).getLast? = l.getLast? := by
  cases l with
  | nil => exact absurd rfl h
  | cons b t => exact List.getLast?_cons_cons

theorem getLast?_drop_of_ne_nil {l : List Char} {n : Nat} (h : l.drop n ≠ []) :
    (l.drop n).getLast? = l.getLast? := by
  obtain ⟨x, hx⟩ := Option.isSome_iff_exists.mp (List.getLast?_isSome.mpr h)
  conv_rhs => rw [← List.take_append_drop n l]
  rw [List.getLast?_append, hx]
  rfl

/-- The `^```json\s*` and `^```\s*` passes leave text alone when no line of
it starts with a backquote: the head is not a backquote and no backquote
follows a line terminator. -/
theorem stripFenceGo_noStart {ps : List Char} :
    ∀ (fuel : Nat) (b : Bool) (cs : List Char), cs.Chain' fenceFree →
      (b = true → cs.head? ≠ some '\x60') →
      stripFenceGo ('\x60' :: ps) fuel b cs = cs := by
  intro fuel
  induction fuel with
  | zero => intro b cs _ _; rfl
  | succ fuel ih =>
    intro b cs hch hh
    cases cs with
    | nil => rfl
    | cons x xs =>
      have hcond : (b && hasPrefixL ('\x60' :: ps) (x :: xs)) = false := by
        cases b with
        | false => rfl
        | true =>
          rw [Bool.true_and]
          cases hp : hasPrefixL ('\x60' :: ps) (x :: xs) with
          | false => rfl
          | true =>
            rw [hasPrefixL, Bool.and_eq_true, beq_iff_eq] at hp
            exact absurd (show (x :: xs).head? = some '\x60' by
              rw [List.head?_cons, ← hp.1]) (hh rfl)
      rw [stripFenceGo, hcond]
      simp only [Bool.false_eq_true, if_false]
      rw [ih _ xs hch.tail ?_]
      intro hx hhead
      have hff := (List.chain'_cons'.mp hch).1 '\x60' hhead
      exact absurd (And.intro hx rfl) hff.1

/-- The `\s*```$` pass leaves text alone when no backquote is last or
stands right before a line terminator. -/
theorem stripTrailFenceGo_noEnd :
    ∀ (fuel : Nat) (cs : List Char), cs.Chain' fenceFree → cs.getLast? ≠ some '\x60' →
      stripTrailFenceGo fuel cs = cs := by
  intro fuel
  induction fuel with
  | zero => intro cs _ _; rfl
  | succ fuel ih =>
    intro cs hch hlast
    cases cs with
    | nil => rfl
    | cons x xs =>
      rw [stripTrailFenceGo]
      split
      · rename_i hc
        exfalso
        rw [Bool.and_eq_true] at hc
        obtain ⟨hpre, hnext⟩ := hc
        have hR : (x :: xs).drop ((x :: xs).takeWhile isJsSpace).length
            = fenceBare ++ ((x :: xs).drop ((x :: xs).takeWhile isJsSpace).length).drop 3 :=
          hasPrefixL_decomp fenceBare _ hpre
        have key : ∀ (c : Char) (t' : List Char), isNlChar c = true →
            ((x :: xs).drop ((x :: xs).takeWhile isJsSpace).length).drop 3 = c :: t' →
            False := by
          intro c t' hnl ht
          rw [ht] at hR
          have hchR : (fenceBare ++ c :: t').Chain' fenceFree := by
            rw [← hR]
            exact hch.suffix (List.drop_suffix _ _)
          have hchR' : ('\x60' :: '\x60' :: '\x60' :: c :: t').Chain' fenceFree := hchR
          have hff := (List.chain'_cons'.mp
            ((List.chain'_cons'.mp ((List.chain'_cons'.mp hchR').2)).2)).1 c rfl
          exact hff.2 ⟨rfl, hnl⟩
        rcases Bool.or_eq_true _ _ |>.mp hnext with hor | hr
        · rcases Bool.or_eq_true _ _ |>.mp hor with he | hn
          · have ht := List.isEmpty_iff.mp he
            rw [ht, List.append_nil] at hR
            have hRne : (x :: xs).drop ((x :: xs).takeWhile isJsSpace).length ≠ [] := by
              rw [hR]; simp [fenceBare]
            have hRlast := getLast?_drop_of_ne_nil hRne
            rw [hR] at hRlast
            exact hlast (by rw [← hRlast]; decide)
          · have hhd := beq_iff_eq.mp hn
            cases hcase : ((x :: xs).drop ((x :: xs).takeWhile isJsSpace).length).drop 3 with
            | nil => rw [hcase] at hhd; simp at hhd
            | cons z zs =>
              rw [hcase] at hhd
              rw [List.head?_cons, Option.some.injEq] at hhd
              exact key z zs (by rw [hhd]; rfl) hcase
        · have hhd := beq_iff_eq.mp hr
          cases hcase : ((x :: xs).drop ((x :: xs).takeWhile isJsSpace).length).drop 3 with
          | nil => rw [hcase] at hhd; simp at hhd
          | cons z zs =>
            rw [hcase] at hhd
            rw [List.head?_cons, Option.some.injEq] at hhd
            exact key z zs (by rw [hhd]; rfl) hcase
      · rw [ih xs hch.tail ?_]
        cases xs with
        | nil => intro hx; simp at hx
        | cons y ys => rw [getLast?_cons_of_ne (List.cons_ne_nil y ys)] at hlast; exact hlast

theorem stripJsonFence_noStart {cs : List Char} (hch : cs.Chain' fenceFree)
    (hh : cs.head? ≠ some '\x60') : stripJsonFence cs = cs := by
  rw [stripJsonFence, show fenceJson = '\x60' :: ['\x60', '\x60', 'j', 's', 'o', 'n'] from rfl]
  exact stripFenceGo_noStart _ _ _ hch (fun _ => hh)

theorem stripBareFence_noStart {cs : List Char} (hch : cs.Chain' fenceFree)
    (hh : cs.head? ≠ some '\x60') : stripBareFence cs = cs := by
  rw [stripBareFence, show fenceBare = '\x60' :: ['\x60', '\x60'] from rfl]
  exact stripFenceGo_noStart _ _ _ hch (fun _ => hh)

theorem stripTrailFence_noEnd {cs : List Char} (hch : cs.Chain' fenceFree)
    (hl : cs.getLast? ≠ some '\x60') : stripTrailFence cs = cs :=
  stripTrailFenceGo_noEnd cs.length cs hch hl

theorem skipWsJ_split (l : List Char) : l = l.takeWhile wsJChar ++ skipWsJ l :=
  (List.takeWhile_append_dropWhile wsJChar l).symm

theorem wsJChar_no_tick {c : Char} (h : wsJChar c = true) : c ≠ '\x60' := by
  intro he
  subst he
  exact absurd h (by decide)

theorem mem_wsTake_no_tick {l : List Char} : ∀ c ∈ l.takeWhile wsJChar, c ≠ '\x60' :=
  fun _ hc => wsJChar_no_tick (List.mem_takeWhile_imp hc)

theorem chain'_wsTake {l : List Char} : (l.takeWhile wsJChar).Chain' fenceFree :=
  chain'_no_tick mem_wsTake_no_tick

theorem hexDigit_no_nl {c : Char}
    (h : (c.isDigit || ('a' ≤ c && c ≤ 'f') || ('A' ≤ c && c ≤ 'F')) = true) :
    isNlChar c = false := by
  cases hnl : isNlChar c with
  | false => rfl
  | true =>
    have hc : c = '\n' ∨ c = '\r' := by simpa [isNlChar] using hnl
    rcases hc with rfl | rfl <;> exact absurd h (by decide)

theorem ge32_no_nl {c : Char} (h : ¬ c.toNat < 32) : isNlChar c = false := by
  cases hnl : isNlChar c with
  | false => rfl
  | true =>
    have hc : c = '\n' ∨ c = '\r' := by simpa [isNlChar] using hnl
    rcases hc with rfl | rfl <;> exact absurd (by decide) h

/-- The characters consumed by the string-literal parser contain no raw
line terminator and end at the closing quote. -/
theorem parseStrJ_consumed :
    ∀ (n : Nat) (cs : List Char), cs.length ≤ n →
      ∀ (acc : List Char) (out : String) (rest : List Char),
        parseStrJ acc cs = some (out, rest) →
        ∃ seg, cs = seg ++ rest ∧ (∀ c ∈ seg, isNlChar c = false) ∧
          seg.getLast? = some '"' := by
  intro n
  induction n with
  | zero =>
    intro cs hl acc out rest h
    have hnil : cs = [] := List.length_eq_zero.mp (Nat.le_zero.mp hl)
    subst hnil
    exact absurd h (by simp [parseStrJ])
  | succ n ih =>
    intro cs hl acc out rest h
    rw [parseStrJ.eq_def] at h
    split at h
    · -- closing quote
      rename_i acc1 rest1
      simp only [Option.some.injEq, Prod.mk.injEq] at h
      obtain ⟨-, rfl⟩ := h
      exact ⟨['"'], rfl, by decide, rfl⟩
    · -- escape sequence
      rename_i acc1 e rest2
      split at h
      · obtain ⟨seg', hceq, hmem, hlast⟩ :=
          ih rest2 (by simp only [List.length_cons] at hl; omega) _ _ _ h
        refine ⟨['\\', '"'] ++ seg', by simp [hceq], ?_, ?_⟩
        · exact List.forall_mem_append.mpr ⟨by decide, hmem⟩
        · rw [List.getLast?_append, hlast]; rfl
      · obtain ⟨seg', hceq, hmem, hlast⟩ :=
          ih rest2 (by simp only [List.length_cons] at hl; omega) _ _ _ h
        refine ⟨['\\', '\\'] ++ seg', by simp [hceq], ?_, ?_⟩
        · exact List.forall_mem_append.mpr ⟨by decide, hmem⟩
        · rw [List.getLast?_append, hlast]; rfl
      · obtain ⟨seg', hceq, hmem, hlast⟩ :=
          ih rest2 (by simp only [List.length_cons] at hl; omega) _ _ _ h
        refine ⟨['\\', '/'] ++ seg', by simp [hceq], ?_, ?_⟩
        · exact List.forall_mem_append.mpr ⟨by decide, hmem⟩
        · rw [List.getLast?_append, hlast]; rfl
      · obtain ⟨seg', hceq, hmem, hlast⟩ :=
          ih rest2 (by simp only [List.length_cons] at hl; omega) _ _ _ h
        refine ⟨['\\', 'b'] ++ seg', by simp [hceq], ?_, ?_⟩
        · exact List.forall_mem_append.mpr ⟨by decide, hmem⟩
        · rw [List.getLast?_append, hlast]; rfl
      · obtain ⟨seg', hceq, hmem, hlast⟩ :=
          ih rest2 (by simp only [List.length_cons] at hl; omega) _ _ _ h
        refine ⟨['\\', 'f'] ++ seg', by simp [hceq], ?_, ?_⟩
        · exact List.forall_mem_append.mpr ⟨by decide, hmem⟩
        · rw [List.getLast?_append, hlast]; rfl
      · obtain ⟨seg', hceq, hmem, hlast⟩ :=
          ih rest2 (by simp only [List.length_cons] at hl; omega) _ _ _ h
        refine ⟨['\\', 'n'] ++ seg', by simp [hceq], ?_, ?_⟩
        · exact List.forall_mem_append.mpr ⟨by decide, hmem⟩
        · rw [List.getLast?_append, hlast]; rfl
      · obtain ⟨seg', hceq, hmem, hlast⟩ :=
          ih rest2 (by simp only [List.length_cons] at hl; omega) _ _ _ h
        refine ⟨['\\', 'r'] ++ seg', by simp [hceq], ?_, ?_⟩
        · exact List.forall_mem_append.mpr ⟨by decide, hmem⟩
        · rw [List.getLast?_append, hlast]; rfl
      · obtain ⟨seg', hceq, hmem, hlast⟩ :=
          ih rest2 (by simp only [List.length_cons] at hl; omega) _ _ _ h
        refine ⟨['\\', 't'] ++ seg', by simp [hceq], ?_, ?_⟩
        · exact List.forall_mem_append.mpr ⟨by decide, hmem⟩
        · rw [List.getLast?_append, hlast]; rfl
      · -- unicode escape
        split at h
        · rename_i h1 h2 h3 h4 rest3
          dsimp only at h
          split at h
          · rename_i hhex
            obtain ⟨seg', hceq, hmem, hlast⟩ :=
              ih rest3 (by simp only [List.length_cons] at hl; omega) _ _ _ h
            rw [Bool.and_eq_true, Bool.and_eq_true, Bool.and_eq_true] at hhex
            obtain ⟨⟨⟨hx1, hx2⟩, hx3⟩, hx4⟩ := hhex
            refine ⟨['\\', 'u', h1, h2, h3, h4] ++ seg', by simp [hceq], ?_, ?_⟩
            · refine List.forall_mem_append.mpr ⟨?_, hmem⟩
              intro c hc
              simp only [List.mem_cons, List.not_mem_nil, or_false] at hc
              rcases hc with rfl | rfl | rfl | rfl | rfl | rfl
              · rfl
              · rfl
              · exact hexDigit_no_nl hx1
              · exact hexDigit_no_nl hx2
              · exact hexDigit_no_nl hx3
              · exact hexDigit_no_nl hx4
            · rw [List.getLast?_append, hlast]; rfl
          · exact absurd h (by simp)
        · exact absurd h (by simp)
      · -- invalid escape letter
        exact absurd h (by simp)
    · -- ordinary character
      rename_i acc1 c rest2 hne1 hne2
      split at h
      · exact absurd h (by simp)
      · rename_i hge
        obtain ⟨seg', hceq, hmem, hlast⟩ :=
          ih rest2 (by simp only [List.length_cons] at hl; omega) _ _ _ h
        refine ⟨[c] ++ seg', by simp [hceq], ?_, ?_⟩
        · refine List.forall_mem_append.mpr ⟨?_, hmem⟩
          intro ch hc
          simp only [List.mem_cons, List.not_mem_nil, or_false] at hc
          subst hc
          exact ge32_no_nl hge
        · rw [List.getLast?_append, hlast]; rfl
    · -- empty input
      exact absurd h (by simp)

theorem drop_length_takeWhile (p : Char → Bool) :
    ∀ l : List Char, l.drop (l.takeWhile p).length = l.dropWhile p := by
  intro l
  induction l with
  | nil => rfl
  | cons a t ih =>
    by_cases hp : p a
    · simp [List.takeWhile_cons, List.dropWhile_cons, hp, ih]
    · simp [List.takeWhile_cons, List.dropWhile_cons, hp]

theorem takeWhile_drop_split (p : Char → Bool) (l : List Char) :
    l = l.takeWhile p ++ l.drop (l.takeWhile p).length := by
  conv_lhs => rw [← List.takeWhile_append_dropWhile p l]
  rw [drop_length_takeWhile]

theorem mem_P_num {l : List Char} : ∀ c ∈ l.takeWhile Char.isDigit, numChar c :=
  fun _ hc => Or.inl (List.mem_takeWhile_imp hc)

theorem numChar_of_exp {e : Char} (h : (e == 'e' || e == 'E') = true) : numChar e := by
  rcases Bool.or_eq_true _ _ |>.mp h with h1 | h1
  · exact Or.inr (Or.inr (Or.inr (Or.inr (Or.inl (beq_iff_eq.mp h1)))))
  · exact Or.inr (Or.inr (Or.inr (Or.inr (Or.inr (beq_iff_eq.mp h1)))))

theorem numSeg_finish (core : List Char) {cs cs1 rest : List Char}
    (hsign : cs = cs1 ∨ cs = '-' :: cs1)
    (h1 : cs1 = core ++ rest) (hne : core ≠ [])
    (hm : ∀ c ∈ core, numChar c) :
    ∃ seg, cs = seg ++ rest ∧ seg ≠ [] ∧ ∀ c ∈ seg, numChar c := by
  rcases hsign with rfl | rfl
  · exact ⟨core, h1, hne, hm⟩
  · refine ⟨'-' :: core, by rw [h1]; rfl, List.cons_ne_nil _ _, ?_⟩
    intro c hc
    rcases List.mem_cons.mp hc with rfl | hc'
    · exact Or.inr (Or.inl rfl)
    · exact hm c hc'

/-- The characters consumed by the number parser form a nonempty numeric
token. -/
theorem parseNumJ_consumed :
    ∀ (cs : List Char) (q : ℚ) (rest : List Char), parseNumJ cs = some (q, rest) →
      ∃ seg, cs = seg ++ rest ∧ seg ≠ [] ∧ ∀ c ∈ seg, numChar c := by
  intro cs q rest h
  rw [parseNumJ.eq_def] at h
  split at h
  rename_i neg cs1 heq
  have hsign : cs = cs1 ∨ cs = '-' :: cs1 := by
    split at heq
    · rename_i r
      rw [Prod.mk.injEq] at heq
      right
      rw [heq.2]
    · rw [Prod.mk.injEq] at heq
      left
      exact heq.2
  dsimp only at h
  split at h
  · exact absurd h (by simp)
  rename_i hip
  split at h
  · exact absurd h (by simp)
  rename_i hzero
  split at h
  · exact absurd h (by simp)
  rename_i hfrac
  split at h
  · rename_i cs3x e c4 heqP
    have hcore1 : ∃ core1, cs1 = core1 ++ e :: c4 ∧ core1 ≠ [] ∧ ∀ c ∈ core1, numChar c := by
      split at heqP
      · rename_i c3 heq2
        dsimp only at heqP
        refine ⟨List.takeWhile Char.isDigit cs1 ++ '.' :: List.takeWhile Char.isDigit c3,
          ?_, by simp, ?_⟩
        · have hB : c3 = List.takeWhile Char.isDigit c3 ++ e :: c4 := by
            conv_lhs => rw [takeWhile_drop_split Char.isDigit c3]
            rw [heqP]
          conv_lhs => rw [takeWhile_drop_split Char.isDigit cs1]
          rw [heq2]
          conv_lhs => rw [hB]
          simp
        · refine List.forall_mem_append.mpr ⟨mem_P_num, ?_⟩
          intro c hc
          rcases List.mem_cons.mp hc with rfl | hc'
          · exact Or.inr (Or.inr (Or.inr (Or.inl rfl)))
          · exact mem_P_num c hc'
      · dsimp only at heqP
        refine ⟨List.takeWhile Char.isDigit cs1, ?_, hip, mem_P_num⟩
        conv_lhs => rw [takeWhile_drop_split Char.isDigit cs1]
        rw [heqP]
    obtain ⟨core1, hc1eq, hc1ne, hc1mem⟩ := hcore1
    split at h
    · rename_i hexp
      split at h
      · exact absurd h (by simp)
      rename_i hned
      split at hned
      · -- exponent sign '+'
        rename_i r
        simp only [Option.some.injEq, Prod.mk.injEq] at h
        obtain ⟨-, rfl⟩ := h
        refine numSeg_finish (core1 ++ e :: '+' :: List.takeWhile Char.isDigit r) hsign ?_
          (by simp [hc1ne]) ?_
        · rw [hc1eq]
          conv_lhs => rw [takeWhile_drop_split Char.isDigit r]
          simp
        · refine List.forall_mem_append.mpr ⟨hc1mem, ?_⟩
          intro c hc
          rcases List.mem_cons.mp hc with rfl | hc2
          · exact numChar_of_exp hexp
          rcases List.mem_cons.mp hc2 with rfl | hc3
          · exact Or.inr (Or.inr (Or.inl rfl))
          · exact mem_P_num c hc3
      · -- exponent sign '-'
        rename_i r
        simp only [Option.some.injEq, Prod.mk.injEq] at h
        obtain ⟨-, rfl⟩ := h
        refine numSeg_finish (core1 ++ e :: '-' :: List.takeWhile Char.isDigit r) hsign ?_
          (by simp [hc1ne]) ?_
        · rw [hc1eq]
          conv_lhs => rw [takeWhile_drop_split Char.isDigit r]
          simp
        · refine List.forall_mem_append.mpr ⟨hc1mem, ?_⟩
          intro c hc
          rcases List.mem_cons.mp hc with rfl | hc2
          · exact numChar_of_exp hexp
          rcases List.mem_cons.mp hc2 with rfl | hc3
          · exact Or.inr (Or.inl rfl)
          · exact mem_P_num c hc3
      · -- no exponent sign
        simp only [Option.some.injEq, Prod.mk.injEq] at h
        obtain ⟨-, rfl⟩ := h
        refine numSeg_finish (core1 ++ e :: List.takeWhile Char.isDigit c4) hsign ?_
          (by simp [hc1ne]) ?_
        · rw [hc1eq]
          conv_lhs => rw [takeWhile_drop_split Char.isDigit c4]
          simp
        · refine List.forall_mem_append.mpr ⟨hc1mem, ?_⟩
          intro c hc
          rcases List.mem_cons.mp hc with rfl | hc2
          · exact numChar_of_exp hexp
          · exact mem_P_num c hc2
    · -- head of the tail is not an exponent marker: it stays unconsumed
      simp only [Option.some.injEq, Prod.mk.injEq] at h
      obtain ⟨-, hrest⟩ := h
      rw [← hrest, heqP]
      exact numSeg_finish core1 hsign hc1eq hc1ne hc1mem
  · -- nothing after the mantissa
    rename_i cs3x heqP
    have hcore1 : ∃ core1, cs1 = core1 ++ [] ∧ core1 ≠ [] ∧ ∀ c ∈ core1, numChar c := by
      split at heqP
      · rename_i c3 heq2
        dsimp only at heqP
        refine ⟨List.takeWhile Char.isDigit cs1 ++ '.' :: List.takeWhile Char.isDigit c3,
          ?_, by simp, ?_⟩
        · have hB : c3 = List.takeWhile Char.isDigit c3 ++ [] := by
            conv_lhs => rw [takeWhile_drop_split Char.isDigit c3]
            rw [heqP]
          conv_lhs => rw [takeWhile_drop_split Char.isDigit cs1]
          rw [heq2]
          conv_lhs => rw [hB]
          simp
        · refine List.forall_mem_append.mpr ⟨mem_P_num, ?_⟩
          intro c hc
          rcases List.mem_cons.mp hc with rfl | hc'
          · exact Or.inr (Or.inr (Or.inr (Or.inl rfl)))
          · exact mem_P_num c hc'
      · dsimp only at heqP
        refine ⟨List.takeWhile Char.isDigit cs1, ?_, hip, mem_P_num⟩
        conv_lhs => rw [takeWhile_drop_split Char.isDigit cs1]
        rw [heqP]
    obtain ⟨core1, hc1eq, hc1ne, hc1mem⟩ := hcore1
    simp only [Option.some.injEq, Prod.mk.injEq] at h
    obtain ⟨-, hrest⟩ := h
    rw [← hrest, heqP]
    exact numSeg_finish core1 hsign hc1eq hc1ne hc1mem

theorem numChar_plain {c : Char} (h : numChar c) : plainChar c := by
  rcases h with h | rfl | rfl | rfl | rfl | rfl
  · refine ⟨?_, ?_⟩
    · intro he
      subst he
      exact absurd h (by decide)
    · cases hnl : isNlChar c with
      | false => rfl
      | true =>
        have hc : c = '\n' ∨ c = '\r' := by simpa [isNlChar] using hnl
        rcases hc with rfl | rfl <;> exact absurd h (by decide)
  · exact ⟨by decide, rfl⟩
  · exact ⟨by decide, rfl⟩
  · exact ⟨by decide, rfl⟩
  · exact ⟨by decide, rfl⟩
  · exact ⟨by decide, rfl⟩

theorem goodSeg_of_lit {seg : List Char} (hne : seg ≠ [])
    (hall : ∀ c ∈ seg, plainChar c) : goodSeg seg :=
  ⟨chain'_no_nl (fun c hc => (hall c hc).2), hne,
   fun a ha => hall a (List.mem_of_mem_head? ha),
   fun a ha => hall a (List.mem_of_mem_getLast? ha)⟩

theorem head?_pred_append {P : Char → Prop} {xs ys : List Char}
    (hx : ∀ a ∈ xs.head?, P a) (hy : ∀ a ∈ ys.head?, P a) :
    ∀ a ∈ (xs ++ ys).head?, P a := by
  intro a ha
  rw [List.head?_append] at ha
  cases hxs : xs.head? with
  | some b =>
    rw [hxs] at ha
    exact hx a (by rw [hxs]; exact (by simpa using ha))
  | none =>
    rw [hxs] at ha
    exact hy a (by simpa using ha)

theorem ne_nil_of_getLast? {l : List Char} {a : Char} (h : l.getLast? = some a) : l ≠ [] := by
  intro hh
  rw [hh] at h
  simp at h

theorem getLast?_append_right' {xs ys : List Char} (h : ys ≠ []) :
    (xs ++ ys).getLast? = ys.getLast? := by
  rw [List.getLast?_append]
  obtain ⟨b, hb⟩ := Option.isSome_iff_exists.mp (List.getLast?_isSome.mpr h)
  rw [hb]
  rfl

theorem getLast?_glue {xs ys : List Char} {a : Char} (h : ys.getLast? = some a) :
    (xs ++ ys).getLast? = some a := by
  rw [getLast?_append_right' (ne_nil_of_getLast? h)]
  exact h

theorem getLast?_glue_cons {c : Char} {ys : List Char} {a : Char} (h : ys.getLast? = some a) :
    (c :: ys).getLast? = some a := by
  rw [getLast?_cons_of_ne (ne_nil_of_getLast? h)]
  exact h

theorem glue_plain_cons {c : Char} {t : List Char} (hc : plainChar c)
    (hch : t.Chain' fenceFree) : (c :: t).Chain' fenceFree :=
  List.chain'_cons'.mpr ⟨fun _ _ => ff_plain_left hc, hch⟩

theorem glue_plain_last {xs ys : List Char} (hx : xs.Chain' fenceFree)
    (hl : ∀ a ∈ xs.getLast?, plainChar a) (hy : ys.Chain' fenceFree) :
    (xs ++ ys).Chain' fenceFree :=
  List.Chain'.append hx hy (fun x hx' _ _ => ff_plain_left (hl x hx'))

theorem glue_ws (l : List Char) {t : List Char} (hch : t.Chain' fenceFree)
    (hh : ∀ a ∈ t.head?, a ≠ '\x60') :
    ((l.takeWhile wsJChar) ++ t).Chain' fenceFree ∧
      (∀ a ∈ ((l.takeWhile wsJChar) ++ t).head?, a ≠ '\x60') :=
  ⟨List.Chain'.append chain'_wsTake hch
    (fun x hx y hy => ff_no_tick (mem_wsTake_no_tick x (List.mem_of_mem_getLast? hx)) (hh y hy)),
   head?_pred_append (fun a ha => mem_wsTake_no_tick a (List.mem_of_mem_head? ha)) hh⟩

/-- Characters consumed by the JSON parsers satisfy the chain invariants. -/
theorem parse_consumed : ∀ (fuel : Nat),
    (∀ (cs : List Char) (j : Json) (rest : List Char),
        parseValJ fuel cs = some (j, rest) → ∃ seg, cs = seg ++ rest ∧ goodSeg seg) ∧
    (∀ (cs : List Char) (vs : List Json) (rest : List Char),
        parseArrJ fuel cs = some (vs, rest) → ∃ seg, cs = seg ++ rest ∧ goodDelim ']' seg) ∧
    (∀ (cs : List Char) (ms : List (String × Json)) (rest : List Char),
        parseObjJ fuel cs = some (ms, rest) → ∃ seg, cs = seg ++ rest ∧ goodDelim '\x7d' seg) := by
  intro fuel
  induction fuel with
  | zero =>
    refine ⟨?_, ?_, ?_⟩ <;> intro cs a rest h <;>
      exact absurd h (by simp [parseValJ, parseArrJ, parseObjJ])
  | succ fuel ih =>
    obtain ⟨ihV, ihA, ihO⟩ := ih
    refine ⟨?_, ?_, ?_⟩
    · -- value parser
      intro cs j rest h
      cases cs with
      | nil => exact absurd h (by simp [parseValJ])
      | cons c cs0 =>
        rw [parseValJ.eq_def] at h
        simp only [] at h
        by_cases h1 : (c == '"') = true
        · -- string
          rw [if_pos h1] at h
          obtain rfl : c = '"' := beq_iff_eq.mp h1
          rw [Option.map_eq_some'] at h
          obtain ⟨⟨s, r1⟩, hps, hmap⟩ := h
          rw [Prod.mk.injEq] at hmap
          obtain ⟨-, rfl⟩ := hmap
          obtain ⟨seg, hseq, hmem, hlastq⟩ :=
            parseStrJ_consumed cs0.length cs0 le_rfl [] s r1 hps
          refine ⟨'"' :: seg, by rw [hseq]; rfl, ?_, List.cons_ne_nil _ _, ?_, ?_⟩
          · refine chain'_no_nl ?_
            intro x hx
            rcases List.mem_cons.mp hx with rfl | hx'
            · rfl
            · exact hmem x hx'
          · intro a ha
            obtain rfl : a = '"' := by simpa using ha.symm
            exact ⟨by decide, rfl⟩
          · intro a ha
            rw [getLast?_glue_cons hlastq] at ha
            obtain rfl : a = '"' := by simpa using ha.symm
            exact ⟨by decide, rfl⟩
        rw [if_neg h1] at h
        by_cases h2 : (c == 't') = true
        · -- true
          rw [if_pos h2] at h
          obtain rfl : c = 't' := beq_iff_eq.mp h2
          split at h
          · rw [Option.some.injEq, Prod.mk.injEq] at h
            obtain ⟨-, rfl⟩ := h
            exact ⟨['t', 'r', 'u', 'e'], rfl, goodSeg_of_lit (by simp) (by decide)⟩
          · exact absurd h (by simp)
        rw [if_neg h2] at h
        by_cases h3 : (c == 'f') = true
        · -- false
          rw [if_pos h3] at h
          obtain rfl : c = 'f' := beq_iff_eq.mp h3
          split at h
          · rw [Option.some.injEq, Prod.mk.injEq] at h
            obtain ⟨-, rfl⟩ := h
            exact ⟨['f', 'a', 'l', 's', 'e'], rfl, goodSeg_of_lit (by simp) (by decide)⟩
          · exact absurd h (by simp)
        rw [if_neg h3] at h
        by_cases h4 : (c == 'n') = true
        · -- null
          rw [if_pos h4] at h
          obtain rfl : c = 'n' := beq_iff_eq.mp h4
          split at h
          · rw [Option.some.injEq, Prod.mk.injEq] at h
            obtain ⟨-, rfl⟩ := h
            exact ⟨['n', 'u', 'l', 'l'], rfl, goodSeg_of_lit (by simp) (by decide)⟩
          · exact absurd h (by simp)
        rw [if_neg h4] at h
        by_cases h5 : (c == '[') = true
        · -- array
          rw [if_pos h5] at h
          obtain rfl : c = '[' := beq_iff_eq.mp h5
          split at h
          · -- empty array
            rename_i r2 heqw
            rw [Option.some.injEq, Prod.mk.injEq] at h
            obtain ⟨-, rfl⟩ := h
            refine ⟨'[' :: (cs0.takeWhile wsJChar ++ [']']), ?_, ?_, List.cons_ne_nil _ _,
              ?_, ?_⟩
            · conv_lhs => rw [skipWsJ_split cs0]
              rw [heqw]
              simp
            · refine glue_plain_cons (by decide) ?_
              exact List.Chain'.append chain'_wsTake (List.chain'_singleton _)
                (fun x hx y hy => ff_no_tick
                  (mem_wsTake_no_tick x (List.mem_of_mem_getLast? hx))
                  (by
                    obtain rfl : y = ']' := by simpa using hy.symm
                    decide))
            · intro a ha
              obtain rfl : a = '[' := by simpa using ha.symm
              exact ⟨by decide, rfl⟩
            · intro a ha
              rw [getLast?_glue_cons (getLast?_glue (show ([']'] : List Char).getLast? = some ']' from rfl))] at ha
              obtain rfl : a = ']' := by simpa using ha.symm
              exact ⟨by decide, rfl⟩
          · -- nonempty array
            rw [Option.map_eq_some'] at h
            obtain ⟨⟨vs, r1⟩, hpa, hmap⟩ := h
            rw [Prod.mk.injEq] at hmap
            obtain ⟨-, rfl⟩ := hmap
            obtain ⟨segA, hseqA, hchA, hheadA, hlastA⟩ := ihA _ _ _ hpa
            refine ⟨'[' :: (cs0.takeWhile wsJChar ++ segA), ?_, ?_, List.cons_ne_nil _ _,
              ?_, ?_⟩
            · conv_lhs => rw [skipWsJ_split cs0]
              rw [hseqA]
              simp
            · exact glue_plain_cons (by decide) (glue_ws cs0 hchA hheadA).1
            · intro a ha
              obtain rfl : a = '[' := by simpa using ha.symm
              exact ⟨by decide, rfl⟩
            · intro a ha
              rw [getLast?_glue_cons (getLast?_glue hlastA)] at ha
              obtain rfl : a = ']' := by simpa using ha.symm
              exact ⟨by decide, rfl⟩
        rw [if_neg h5] at h
        by_cases h6 : (c == '\x7b') = true
        · -- object
          rw [if_pos h6] at h
          obtain rfl : c = '\x7b' := beq_iff_eq.mp h6
          split at h
          · -- empty object
            rename_i r2 heqw
            rw [Option.some.injEq, Prod.mk.injEq] at h
            obtain ⟨-, rfl⟩ := h
            refine ⟨'\x7b' :: (cs0.takeWhile wsJChar ++ ['\x7d']), ?_, ?_,
              List.cons_ne_nil _ _, ?_, ?_⟩
            · conv_lhs => rw [skipWsJ_split cs0]
              rw [heqw]
              simp
            · refine glue_plain_cons (by decide) ?_
              exact List.Chain'.append chain'_wsTake (List.chain'_singleton _)
                (fun x hx y hy => ff_no_tick
                  (mem_wsTake_no_tick x (List.mem_of_mem_getLast? hx))
                  (by
                    obtain rfl : y = '\x7d' := by simpa using hy.symm
                    decide))
            · intro a ha
              obtain rfl : a = '\x7b' := by simpa using ha.symm
              exact ⟨by decide, rfl⟩
            · intro a ha
              rw [getLast?_glue_cons (getLast?_glue (show (['\x7d'] : List Char).getLast? = some '\x7d' from rfl))] at ha
              obtain rfl : a = '\x7d' := by simpa using ha.symm
              exact ⟨by decide, rfl⟩
          · -- nonempty object
            rw [Option.map_eq_some'] at h
            obtain ⟨⟨ms, r1⟩, hpo, hmap⟩ := h
            rw [Prod.mk.injEq] at hmap
            obtain ⟨-, rfl⟩ := hmap
            obtain ⟨segO, hseqO, hchO, hheadO, hlastO⟩ := ihO _ _ _ hpo
            refine ⟨'\x7b' :: (cs0.takeWhile wsJChar ++ segO), ?_, ?_,
              List.cons_ne_nil _ _, ?_, ?_⟩
            · conv_lhs => rw [skipWsJ_split cs0]
              rw [hseqO]
              simp
            · exact glue_plain_cons (by decide) (glue_ws cs0 hchO hheadO).1
            · intro a ha
              obtain rfl : a = '\x7b' := by simpa using ha.symm
              exact ⟨by decide, rfl⟩
            · intro a ha
              rw [getLast?_glue_cons (getLast?_glue hlastO)] at ha
              obtain rfl : a = '\x7d' := by simpa using ha.symm
              exact ⟨by decide, rfl⟩
        rw [if_neg h6] at h
        by_cases h7 : (c == '-' || c.isDigit) = true
        · -- number
          rw [if_pos h7] at h
          rw [Option.map_eq_some'] at h
          obtain ⟨⟨qv, r1⟩, hpn, hmap⟩ := h
          rw [Prod.mk.injEq] at hmap
          obtain ⟨-, rfl⟩ := hmap
          obtain ⟨seg, hseq, hne, hmem⟩ := parseNumJ_consumed _ _ _ hpn
          exact ⟨seg, hseq, goodSeg_of_lit hne (fun x hx => numChar_plain (hmem x hx))⟩
        · rw [if_neg h7] at h
          exact absurd h (by simp)
    · -- array-tail parser
      intro cs vs rest h
      rw [parseArrJ.eq_def] at h
      simp only [] at h
      split at h
      · exact absurd h (by simp)
      · rename_i v r1 heqv
        obtain ⟨segV, hseqV, hgV⟩ := ihV _ _ _ heqv
        obtain ⟨hchV, hneV, hheadV, hlastV⟩ := hgV
        split at h
        · -- comma: further elements follow
          rename_i r2 heq2
          rw [Option.map_eq_some'] at h
          obtain ⟨⟨vs2, r3⟩, hpa, hmap⟩ := h
          rw [Prod.mk.injEq] at hmap
          obtain ⟨-, rfl⟩ := hmap
          obtain ⟨segA, hseqA, hchA, hheadA, hlastA⟩ := ihA _ _ _ hpa
          have t1 : (',' :: segA).Chain' fenceFree := glue_plain_cons (by decide) hchA
          have t1h : ∀ a ∈ (',' :: segA).head?, a ≠ '\x60' := by
            intro a ha
            obtain rfl : a = ',' := by simpa using ha.symm
            decide
          have t2 := glue_ws r1 t1 t1h
          have t3 : (segV ++ (List.takeWhile wsJChar r1 ++ ',' :: segA)).Chain' fenceFree :=
            glue_plain_last hchV hlastV t2.1
          have t3h : ∀ a ∈ (segV ++ (List.takeWhile wsJChar r1 ++ ',' :: segA)).head?,
              a ≠ '\x60' :=
            head?_pred_append (fun a ha => (hheadV a ha).1) t2.2
          have t4 := glue_ws cs t3 t3h
          refine ⟨List.takeWhile wsJChar cs ++
            (segV ++ (List.takeWhile wsJChar r1 ++ ',' :: segA)), ?_, t4.1, t4.2,
            getLast?_glue (getLast?_glue (getLast?_glue (getLast?_glue_cons hlastA)))⟩
          conv_lhs => rw [skipWsJ_split cs]
          rw [hseqV]
          conv_lhs => rw [skipWsJ_split r1]
          rw [heq2, hseqA]
          simp [List.append_assoc]
        · -- closing bracket
          rename_i r2 heq2
          rw [Option.some.injEq, Prod.mk.injEq] at h
          obtain ⟨-, rfl⟩ := h
          have t1 : ([']'] : List Char).Chain' fenceFree := List.chain'_singleton _
          have t1h : ∀ a ∈ ([']'] : List Char).head?, a ≠ '\x60' := by
            intro a ha
            obtain rfl : a = ']' := by simpa using ha.symm
            decide
          have t2 := glue_ws r1 t1 t1h
          have t3 : (segV ++ (List.takeWhile wsJChar r1 ++ [']'])).Chain' fenceFree :=
            glue_plain_last hchV hlastV t2.1
          have t3h : ∀ a ∈ (segV ++ (List.takeWhile wsJChar r1 ++ [']'])).head?,
              a ≠ '\x60' :=
            head?_pred_append (fun a ha => (hheadV a ha).1) t2.2
          have t4 := glue_ws cs t3 t3h
          refine ⟨List.takeWhile wsJChar cs ++
            (segV ++ (List.takeWhile wsJChar r1 ++ [']'])), ?_, t4.1, t4.2,
            getLast?_glue (getLast?_glue (getLast?_glue
              (show ([']'] : List Char).getLast? = some ']' from rfl)))⟩
          conv_lhs => rw [skipWsJ_split cs]
          rw [hseqV]
          conv_lhs => rw [skipWsJ_split r1]
          rw [heq2]
          simp [List.append_assoc]
        · exact absurd h (by simp)
    · -- object-tail parser
      intro cs ms rest h
      rw [parseObjJ.eq_def] at h
      simp only [] at h
      split at h
      · -- a quoted key begins
        rename_i r1 heqq
        split at h
        · exact absurd h (by simp)
        · rename_i key r2 heqs
          obtain ⟨segS, hseqS, hmemS, hlastS⟩ :=
            parseStrJ_consumed r1.length r1 le_rfl [] key r2 heqs
          have hchS : segS.Chain' fenceFree := chain'_no_nl hmemS
          have hplS : ∀ a ∈ segS.getLast?, plainChar a := by
            intro a ha
            rw [hlastS] at ha
            obtain rfl : a = '"' := by simpa using ha.symm
            exact ⟨by decide, rfl⟩
          split at h
          · -- the colon
            rename_i r3 heqc
            split at h
            · exact absurd h (by simp)
            · rename_i v r4 heqv
              obtain ⟨segV, hseqV, hgV⟩ := ihV _ _ _ heqv
              obtain ⟨hchV, hneV, hheadV, hlastV⟩ := hgV
              split at h
              · -- comma: more members follow
                rename_i r5 heq5
                rw [Option.map_eq_some'] at h
                obtain ⟨⟨ms2, r6⟩, hpo, hmap⟩ := h
                rw [Prod.mk.injEq] at hmap
                obtain ⟨-, rfl⟩ := hmap
                obtain ⟨segO, hseqO, hchO, hheadO, hlastO⟩ := ihO _ _ _ hpo
                have u1 : (',' :: segO).Chain' fenceFree := glue_plain_cons (by decide) hchO
                have u1h : ∀ a ∈ (',' :: segO).head?, a ≠ '\x60' := by
                  intro a ha
                  obtain rfl : a = ',' := by simpa using ha.symm
                  decide
                have u2 := glue_ws r4 u1 u1h
                have u3 : (segV ++ (List.takeWhile wsJChar r4 ++ ',' :: segO)).Chain' fenceFree :=
                  glue_plain_last hchV hlastV u2.1
                have u3h : ∀ a ∈ (segV ++ (List.takeWhile wsJChar r4 ++ ',' :: segO)).head?,
                    a ≠ '\x60' :=
                  head?_pred_append (fun a ha => (hheadV a ha).1) u2.2
                have u4 := glue_ws r3 u3 u3h
                have u5 : (':' :: (List.takeWhile wsJChar r3 ++
                    (segV ++ (List.takeWhile wsJChar r4 ++ ',' :: segO)))).Chain' fenceFree :=
                  glue_plain_cons (by decide) u4.1
                have u5h : ∀ a ∈ (':' :: (List.takeWhile wsJChar r3 ++
                    (segV ++ (List.takeWhile wsJChar r4 ++ ',' :: segO)))).head?, a ≠ '\x60' := by
                  intro a ha
                  obtain rfl : a = ':' := by simpa using ha.symm
                  decide
                have u6 := glue_ws r2 u5 u5h
                have u7 : (segS ++ (List.takeWhile wsJChar r2 ++ (':' :: (List.takeWhile wsJChar r3 ++
                    (segV ++ (List.takeWhile wsJChar r4 ++ ',' :: segO)))))).Chain' fenceFree :=
                  glue_plain_last hchS hplS u6.1
                have u8 : ('"' :: (segS ++ (List.takeWhile wsJChar r2 ++ (':' ::
                    (List.takeWhile wsJChar r3 ++ (segV ++
                      (List.takeWhile wsJChar r4 ++ ',' :: segO))))))).Chain' fenceFree :=
                  glue_plain_cons ⟨by decide, rfl⟩ u7
                have u8h : ∀ a ∈ ('"' :: (segS ++ (List.takeWhile wsJChar r2 ++ (':' ::
                    (List.takeWhile wsJChar r3 ++ (segV ++
                      (List.takeWhile wsJChar r4 ++ ',' :: segO))))))).head?, a ≠ '\x60' := by
                  intro a ha
                  obtain rfl : a = '"' := by simpa using ha.symm
                  decide
                have u9 := glue_ws cs u8 u8h
                refine ⟨List.takeWhile wsJChar cs ++ ('"' :: (segS ++ (List.takeWhile wsJChar r2 ++
                  (':' :: (List.takeWhile wsJChar r3 ++ (segV ++
                    (List.takeWhile wsJChar r4 ++ ',' :: segO))))))), ?_, u9.1, u9.2,
                  getLast?_glue (getLast?_glue_cons (getLast?_glue (getLast?_glue
                    (getLast?_glue_cons (getLast?_glue (getLast?_glue (getLast?_glue
                      (getLast?_glue_cons hlastO))))))))⟩
                conv_lhs => rw [skipWsJ_split cs]
                rw [heqq]
                conv_lhs => rw [hseqS]
                conv_lhs => rw [skipWsJ_split r2]
                rw [heqc]
                conv_lhs => rw [skipWsJ_split r3]
                rw [hseqV]
                conv_lhs => rw [skipWsJ_split r4]
                rw [heq5, hseqO]
                simp [List.append_assoc]
              · -- closing brace
                rename_i r5 heq5
                rw [Option.some.injEq, Prod.mk.injEq] at h
                obtain ⟨-, rfl⟩ := h
                have u1 : (['\x7d'] : List Char).Chain' fenceFree := List.chain'_singleton _
                have u1h : ∀ a ∈ (['\x7d'] : List Char).head?, a ≠ '\x60' := by
                  intro a ha
                  obtain rfl : a = '\x7d' := by simpa using ha.symm
                  decide
                have u2 := glue_ws r4 u1 u1h
                have u3 : (segV ++ (List.takeWhile wsJChar r4 ++ ['\x7d'])).Chain' fenceFree :=
                  glue_plain_last hchV hlastV u2.1
                have u3h : ∀ a ∈ (segV ++ (List.takeWhile wsJChar r4 ++ ['\x7d'])).head?,
                    a ≠ '\x60' :=
                  head?_pred_append (fun a ha => (hheadV a ha).1) u2.2
                have u4 := glue_ws r3 u3 u3h
                have u5 : (':' :: (List.takeWhile wsJChar r3 ++
                    (segV ++ (List.takeWhile wsJChar r4 ++ ['\x7d'])))).Chain' fenceFree :=
                  glue_plain_cons (by decide) u4.1
                have u5h : ∀ a ∈ (':' :: (List.takeWhile wsJChar r3 ++
                    (segV ++ (List.takeWhile wsJChar r4 ++ ['\x7d'])))).head?, a ≠ '\x60' := by
                  intro a ha
                  obtain rfl : a = ':' := by simpa using ha.symm
                  decide
                have u6 := glue_ws r2 u5 u5h
                have u7 : (segS ++ (List.takeWhile wsJChar r2 ++ (':' :: (List.takeWhile wsJChar r3 ++
                    (segV ++ (List.takeWhile wsJChar r4 ++ ['\x7d'])))))).Chain' fenceFree :=
                  glue_plain_last hchS hplS u6.1
                have u8 : ('"' :: (segS ++ (List.takeWhile wsJChar r2 ++ (':' ::
                    (List.takeWhile wsJChar r3 ++ (segV ++
                      (List.takeWhile wsJChar r4 ++ ['\x7d']))))))).Chain' fenceFree :=
                  glue_plain_cons ⟨by decide, rfl⟩ u7
                have u8h : ∀ a ∈ ('"' :: (segS ++ (List.takeWhile wsJChar r2 ++ (':' ::
                    (List.takeWhile wsJChar r3 ++ (segV ++
                      (List.takeWhile wsJChar r4 ++ ['\x7d']))))))).head?, a ≠ '\x60' := by
                  intro a ha
                  obtain rfl : a = '"' := by simpa using ha.symm
                  decide
                have u9 := glue_ws cs u8 u8h
                refine ⟨List.takeWhile wsJChar cs ++ ('"' :: (segS ++ (List.takeWhile wsJChar r2 ++
                  (':' :: (List.takeWhile wsJChar r3 ++ (segV ++
                    (List.takeWhile wsJChar r4 ++ ['\x7d']))))))), ?_, u9.1, u9.2,
                  getLast?_glue (getLast?_glue_cons (getLast?_glue (getLast?_glue
                    (getLast?_glue_cons (getLast?_glue (getLast?_glue (getLast?_glue
                      (show (['\x7d'] : List Char).getLast? = some '\x7d' from rfl))))))))⟩
                conv_lhs => rw [skipWsJ_split cs]
                rw [heqq]
                conv_lhs => rw [hseqS]
                conv_lhs => rw [skipWsJ_split r2]
                rw [heqc]
                conv_lhs => rw [skipWsJ_split r3]
                rw [hseqV]
                conv_lhs => rw [skipWsJ_split r4]
                rw [heq5]
                simp [List.append_assoc]
              · exact absurd h (by simp)
          · exact absurd h (by simp)
      · exact absurd h (by simp)

theorem idxOfChar_append {c : Char} :
    ∀ (pre cs : List Char), c ∉ pre → cs.head? = some c →
      idxOfChar c (pre ++ cs) = some pre.length := by
  intro pre
  induction pre with
  | nil =>
    intro cs h hc
    cases cs with
    | nil => simp at hc
    | cons y ys =>
      have hy : y = c := by simpa using hc
      simp [idxOfChar, hy]
  | cons p ps ih =>
    intro cs h hc
    have hp : ¬ p = c := by
      intro hh
      exact h (by rw [← hh]; exact List.mem_cons_self p ps)
    rw [List.cons_append, idxOfChar, if_neg hp,
      ih cs (fun hm => h (List.mem_cons_of_mem _ hm)) hc]
    rfl

theorem head?_eq_get_zero {cs : List Char} (hl : 0 < cs.length) :
    cs.head? = some (cs.get ⟨0, hl⟩) := by
  cases cs with
  | nil => simp at hl
  | cons a l => rfl

theorem jsTrimList_id {cs : List Char}
    (h1 : ∀ x, cs.head? = some x → isJsSpace x = false)
    (h2 : ∀ x, cs.getLast? = some x → isJsSpace x = false) :
    jsTrimList cs = cs := by
  rw [jsTrimList]
  have hfront : cs.dropWhile isJsSpace = cs := by
    rw [List.dropWhile_eq_self_iff]
    intro hl
    have hx := h1 (cs.get ⟨0, hl⟩) (head?_eq_get_zero hl)
    simpa [List.get_eq_getElem] using hx
  rw [hfront]
  have hback : cs.reverse.dropWhile isJsSpace = cs.reverse := by
    rw [List.dropWhile_eq_self_iff]
    intro hl
    have hx := h2 (cs.reverse.get ⟨0, hl⟩)
      (by rw [← List.head?_reverse cs]; exact head?_eq_get_zero hl)
    simpa [List.get_eq_getElem, List.getElem_reverse] using hx
  rw [hback, List.reverse_reverse]

/-- Text accepted by the JSON parser never puts a backquote at a line
boundary: raw line terminators occur only between tokens and no token
starts or ends with a backquote. -/
theorem jsonParse_chain {s : String} {j : Json} (h : jsonParse s = some j) :
    s.data.Chain' fenceFree := by
  rw [jsonParse.eq_def] at h
  split at h
  · rename_i p j0 r0 heqv
    split at h
    · rename_i hrest
      obtain ⟨seg, hseq, hch, hne, hhead, hlast⟩ := (parse_consumed _).1 _ _ _ heqv
      have hrest2 : r0.dropWhile wsJChar = [] := hrest
      have hws : ∀ c ∈ r0, wsJChar c = true := List.dropWhile_eq_nil_iff.mp hrest2
      have hchR : r0.Chain' fenceFree :=
        chain'_no_tick (fun c hc => wsJChar_no_tick (hws c hc))
      have hSR : (seg ++ r0).Chain' fenceFree := glue_plain_last hch hlast hchR
      have hSRh : ∀ a ∈ (seg ++ r0).head?, a ≠ '\x60' :=
        head?_pred_append (fun a ha => (hhead a ha).1)
          (fun a ha => wsJChar_no_tick (hws a (List.mem_of_mem_head? ha)))
      have hall := glue_ws s.data hSR hSRh
      have hdata : s.data = List.takeWhile wsJChar s.data ++ (seg ++ r0) := by
        conv_lhs => rw [skipWsJ_split s.data]
        rw [hseq]
      rw [hdata]
      exact hall.1
    · exact absurd h (by simp)
  · exact absurd h (by simp)

/-- Cleaning a response of the fenced form ` ```json\n<body>\n``` `, for a
body that is JSON text starting with `{` and ending with `}`, returns
exactly the body. -/
theorem cleanResponse_fenced (b : String) (j : Json)
    (hparse : jsonParse b = some j)
    (hstart : b.data.head? = some '\x7b')
    (hend : b.data.getLast? = some '\x7d') :
    cleanResponse ("```json\n" ++ b ++ "\n```") = b := by
  have hdata : ("```json\n" ++ b ++ "\n```").data
      = (fenceJson ++ ['\n']) ++ (b.data ++ '\n' :: fenceBare) := by
    rw [String.data_append, String.data_append, List.append_assoc]
    rfl
  have hbne : b.data ≠ [] := by
    intro hh
    rw [hh] at hstart
    simp at hstart
  have hblen : 1 ≤ b.data.length := List.length_pos.mpr hbne
  have htrim : jsTrimList (("```json\n" ++ b ++ "\n```").data)
      = (fenceJson ++ ['\n']) ++ (b.data ++ '\n' :: fenceBare) := by
    rw [hdata]
    apply jsTrimList_id
    · intro x hx
      have hx' : x = '\x60' := by
        rw [show ((fenceJson ++ ['\n']) ++ (b.data ++ '\n' :: fenceBare))
            = '\x60' :: (['\x60', '\x60', 'j', 's', 'o', 'n', '\n']
              ++ (b.data ++ '\n' :: fenceBare)) from rfl] at hx
        rw [List.head?_cons, Option.some.injEq] at hx
        exact hx.symm
      rw [hx']
      rfl
    · intro x hx
      have hgl : ((fenceJson ++ ['\n']) ++ (b.data ++ '\n' :: fenceBare)).getLast?
          = some '\x60' := by
        rw [List.getLast?_append, List.getLast?_append,
          show ('\n' :: fenceBare).getLast? = some '\x60' from rfl]
        rfl
      rw [hgl, Option.some.injEq] at hx
      rw [← hx]
      rfl
  have hhd : (b.data ++ '\n' :: fenceBare).head? = some '\x7b' := by
    rw [List.head?_append, hstart]
    rfl
  have hidx : idxOfChar '\x7b' ((fenceJson ++ ['\n']) ++ (b.data ++ '\n' :: fenceBare))
      = some 8 := by
    have h := idxOfChar_append (fenceJson ++ ['\n']) (b.data ++ '\n' :: fenceBare)
      (by decide) hhd
    simpa using h
  have hcut1 : cutBeforeBrace ((fenceJson ++ ['\n']) ++ (b.data ++ '\n' :: fenceBare))
      = b.data ++ '\n' :: fenceBare := by
    simp only [cutBeforeBrace, hidx, Nat.zero_lt_succ, if_pos]
    rw [show (8 : Nat) = (fenceJson ++ ['\n']).length from rfl, List.drop_left]
  have hrevhd : b.data.reverse.head? = some '\x7d' := by
    rw [List.head?_reverse]
    exact hend
  have hlast : lastIdxOfChar '\x7d' (b.data ++ '\n' :: fenceBare)
      = some (b.data.length - 1) := by
    rw [lastIdxOfChar]
    have hrev : (b.data ++ '\n' :: fenceBare).reverse
        = (fenceBare.reverse ++ ['\n']) ++ b.data.reverse := by
      rw [List.reverse_append]
      rfl
    rw [hrev, idxOfChar_append (fenceBare.reverse ++ ['\n']) b.data.reverse (by decide) hrevhd]
    rw [Option.map_some']
    congr 1
    simp only [List.length_append, List.length_cons, List.length_reverse]
    simp [fenceBare]
  have hcut2 : cutAfterBrace (b.data ++ '\n' :: fenceBare) = b.data := by
    simp only [cutAfterBrace, hlast]
    rw [show b.data.length - 1 + 1 = b.data.length from by omega]
    exact List.take_left _ _
  have hch : b.data.Chain' fenceFree := jsonParse_chain hparse
  have hh : b.data.head? ≠ some '\x60' := by
    rw [hstart]
    decide
  have hl : b.data.getLast? ≠ some '\x60' := by
    rw [hend]
    decide
  rw [cleanResponse, htrim, hcut1, hcut2, stripJsonFence_noStart hch hh,
    stripBareFence_noStart hch hh, stripTrailFence_noEnd hch hl]

/-- The engine output is the concatenation of the rule groups in catalog
order. -/
theorem validate_eq_join (clients workers tasks : List Row) :
    validate clients workers tasks = (ruleGroups clients workers tasks).join := by
  simp [validate, ruleGroups, List.join, List.append_assoc]

theorem validateRequiredColumns_length_le (data : List Row) (eT : String)
    (req : List String) : (validateRequiredColumns data eT req).length ≤ 1 := by
  rw [validateRequiredColumns.eq_def]
  split
  · simp
  · dsimp only
    split <;> simp

theorem validateArrayFields_pairwise (data : List Row) (eT fld ty : String) :
    ((validateArrayFields data eT fld ty).map (fun e => e.rowIndex)).Pairwise (· < ·) := by
  apply perRow_pairwise
  intro i r e h
  simp only [] at h
  split at h
  · simp at h
  · simp at h
  · split at h
    · simp at h
    · injection h with h2
      subst h2
      rfl
  · injection h with h2
    subst h2
    rfl

theorem validateRange_pairwise (data : List Row) (eT fld : String) (minV maxV : ℚ) :
    ((validateRange data eT fld minV maxV).map (fun e => e.rowIndex)).Pairwise (· < ·) := by
  apply perRow_pairwise
  intro i r e h
  simp only [] at h
  split at h
  · simp at h
  · simp at h
  · split at h
    · injection h with h2
      subst h2
      rfl
    · simp at h

theorem validateMinValue_pairwise (data : List Row) (eT fld : String) (minV : ℚ) :
    ((validateMinValue data eT fld minV).map (fun e => e.rowIndex)).Pairwise (· < ·) := by
  apply perRow_pairwise
  intro i r e h
  simp only [] at h
  split at h
  · simp at h
  · simp at h
  · split at h
    · injection h with h2
      subst h2
      rfl
    · simp at h

theorem validateJSON_pairwise (data : List Row) (eT fld : String) :
    ((validateJSON data eT fld).map (fun e => e.rowIndex)).Pairwise (· < ·) := by
  apply perRow_pairwise
  intro i r e h
  simp only [] at h
  split at h
  · split at h
    · injection h with h2
      subst h2
      rfl
    · simp at h
  · simp at h

theorem validateTaskReferences_pairwise (clients tasks : List Row) :
    ((validateTaskReferences clients tasks).map (fun e => e.rowIndex)).Pairwise (· < ·) := by
  rw [validateTaskReferences]
  split
  · simp
  · apply perRow_pairwise
    intro i r e h
    simp only [] at h
    split at h
    · split at h
      · simp at h
      · injection h with h2
        subst h2
        rfl
    · simp at h

theorem validateWorkerCapacity_pairwise (workers : List Row) :
    ((validateWorkerCapacity workers).map (fun e => e.rowIndex)).Pairwise (· < ·) := by
  apply perRow_pairwise
  intro i r e h
  simp only [] at h
  split at h
  · split at h
    · injection h with h2
      subst h2
      rfl
    · simp at h
  · simp at h

theorem validateSkillCoverage_pairwise (workers tasks : List Row) :
    ((validateSkillCoverage workers tasks).map (fun e => e.rowIndex)).Pairwise (· < ·) := by
  rw [validateSkillCoverage]
  split
  · simp
  · apply perRow_pairwise
    intro i r e h
    simp only [] at h
    split at h
    · split at h
      · simp at h
      · injection h with h2
        subst h2
        rfl
    · simp at h

/-! Claim theorems. -/

/-- C1: for every well-formed input triple (three lists of row objects)
the validation engine returns a (possibly empty) error list — in the
embedding `validate` is a total function, so it never throws — and the
returned list is the concatenation of the eight catalog rule groups run
independently in catalog order, so every error produced by any single
rule survives into the output regardless of what the other rules do: a
defect confined to one rule or one row never aborts or empties the whole
returned list. -/
theorem c1_engine_total_and_independent :
    ∀ (clients workers tasks : List Row),
      validate clients workers tasks = (ruleGroups clients workers tasks).join ∧
      ∀ g ∈ ruleGroups clients workers tasks, ∀ e ∈ g,
        e ∈ validate clients workers tasks := by
  intro c w t
  refine ⟨validate_eq_join c w t, ?_⟩
  intro g hg e he
  rw [validate_eq_join]
  exact List.mem_join.mpr ⟨g, hg, he⟩

/-- Witness for C1 at a concrete input: a duplicate-identifier error
produced by rule 2 is present in the full engine output. -/
theorem c1_witness :
    dupIdError "clients" "ClientID" 1 (.vStr "A") ∈
      validate [[("ClientID", Value.vStr "A")], [("ClientID", Value.vStr "A")]] [] [] :=
  (c1_engine_total_and_independent
      [[("ClientID", Value.vStr "A")], [("ClientID", Value.vStr "A")]] [] []).2
    (ruleGroup2 [[("ClientID", Value.vStr "A")], [("ClientID", Value.vStr "A")]] [] [])
    (List.mem_cons_of_mem _ (List.mem_cons_self _ _))
    (dupIdError "clients" "ClientID" 1 (.vStr "A"))
    (show dupIdError "clients" "ClientID" 1 (.vStr "A") ∈
        [dupIdError "clients" "ClientID" 1 (.vStr "A")] from
      List.mem_singleton_self _)

/-- C2: for an identifier value that is a non-empty string `s` (the data
model's identifiers), the duplicate-id rule reports errors exactly at the
row index of every occurrence of `s` beyond the first — so `k`
occurrences yield exactly `k - 1` `duplicateId` errors and a unique
occurrence yields none — and everything it reports is a `duplicateId`
error. -/
theorem c2_duplicate_id_errors (data : List Row) (entityType idColumn s : String)
    (hs : s ≠ "") :
    (((validateUniqueIds data entityType idColumn).map (fun e => e.rowIndex)).filter
        (fun i => (idAt data idColumn i).isStr s))
      = ((List.range data.length).filter (fun i => (idAt data idColumn i).isStr s)).drop 1
    ∧ ∀ e ∈ validateUniqueIds data entityType idColumn, e.type = "duplicateId" :=
  ⟨uniq_per_identifier data entityType idColumn s hs,
   fun _ he => (validateUniqueIds_mem_shape he).1⟩

/-- Witness for C2: identifier `"A"` occurring at rows 0, 1 and 2 yields
duplicate errors exactly at rows 1 and 2. -/
theorem c2_witness :
    (((validateUniqueIds
          [[("ClientID", Value.vStr "A")], [("ClientID", Value.vStr "A")],
           [("ClientID", Value.vStr "A")]] "clients" "ClientID").map
        (fun e => e.rowIndex)).filter
        (fun i => (idAt
          [[("ClientID", Value.vStr "A")], [("ClientID", Value.vStr "A")],
           [("ClientID", Value.vStr "A")]] "ClientID" i).isStr "A"))
      = ((List.range
          ([[("ClientID", Value.vStr "A")], [("ClientID", Value.vStr "A")],
            [("ClientID", Value.vStr "A")]] : List Row).length).filter
          (fun i => (idAt
            [[("ClientID", Value.vStr "A")], [("ClientID", Value.vStr "A")],
             [("ClientID", Value.vStr "A")]] "ClientID" i).isStr "A")).drop 1 :=
  (c2_duplicate_id_errors
    [[("ClientID", Value.vStr "A")], [("ClientID", Value.vStr "A")],
     [("ClientID", Value.vStr "A")]] "clients" "ClientID" "A" (by decide)).1

/-- C3 counterexample: a client requesting only task `"T99"` while the
tasks collection is empty produces no `unknownReferences` error at all —
the rule returns early on an empty task collection — refuting the
claim's parenthetical that the error is still reported when the tasks
collection is empty. -/
theorem c3_counterexample :
    rowGet (rowAt [[("RequestedTaskIDs", Value.vArr [Value.vStr "T99"])]] 0)
        "RequestedTaskIDs" = Value.vArr [Value.vStr "T99"] ∧
    ¬ ∃ e ∈ validate [[("RequestedTaskIDs", Value.vArr [Value.vStr "T99"])]] [] [],
        e.type = "unknownReferences" :=
  ⟨rfl, by decide⟩

/-- C3 amended: when the tasks collection is non-empty, a client row whose
`RequestedTaskIDs` is the array `["T99"]` while no task row carries the
(truthy) `TaskID` `"T99"` makes `validate` report an `UnknownReference`
error with `columnName = "RequestedTaskIDs"` at that client's row index. -/
theorem c3_unknown_reference (clients workers tasks : List Row) (i : Nat)
    (hi : i < clients.length)
    (hreq : rowGet (rowAt clients i) "RequestedTaskIDs" = .vArr [.vStr "T99"])
    (htne : tasks ≠ [])
    (hno : ∀ t ∈ tasks, (rowGet t "TaskID").isStr "T99" = false) :
    ∃ e ∈ validate clients workers tasks,
      e.type = "unknownReferences" ∧ e.columnName = "RequestedTaskIDs" ∧
      e.rowIndex = i ∧ e.entityType = "clients" ∧ e.severity = "error" := by
  have hany : (((tasks.map (fun t => rowGet t "TaskID")).filter Value.truthy).any
      (fun w => sameValueZero w (.vStr "T99"))) = false := by
    rw [List.any_eq_false]
    intro w hw
    rw [List.mem_filter] at hw
    rcases List.mem_map.mp hw.1 with ⟨t, ht, rfl⟩
    rw [sameValueZero_isStr]
    simp [hno t ht]
  have hne : ¬(clients.length = 0 ∨ tasks.length = 0) := by
    push_neg
    refine ⟨by omega, ?_⟩
    simpa [List.length_eq_zero] using htne
  have hmem : unknownRefError i [Value.vStr "T99"] ∈ validateTaskReferences clients tasks := by
    rw [validateTaskReferences, if_neg hne]
    apply perRow_mem_of_apply hi
    simp only [hreq]
    rw [show ([Value.vStr "T99"].filter
        (fun taskId => !(((tasks.map (fun t => rowGet t "TaskID")).filter Value.truthy).any
          (fun w => sameValueZero w taskId)))) = [Value.vStr "T99"] from by
      rw [List.filter_cons]
      simp [hany]]
  refine ⟨unknownRefError i [Value.vStr "T99"], ?_, rfl, rfl, rfl, rfl, rfl⟩
  rw [validate]
  simp only [List.mem_append]
  tauto

/-- Witness for C3 at a concrete input: one client requesting `"T99"`,
one unrelated task. -/
theorem c3_witness :
    ∃ e ∈ validate [[("RequestedTaskIDs", Value.vArr [Value.vStr "T99"])]] []
        [[("TaskID", Value.vStr "T1")]],
      e.type = "unknownReferences" ∧ e.columnName = "RequestedTaskIDs" ∧
      e.rowIndex = 0 ∧ e.entityType = "clients" ∧ e.severity = "error" :=
  c3_unknown_reference [[("RequestedTaskIDs", Value.vArr [Value.vStr "T99"])]] []
    [[("TaskID", Value.vStr "T1")]] 0 (by decide) rfl (List.cons_ne_nil _ _) (by decide)

/-- C4 counterexample: with three clients sharing `ClientID` `"C1"` and two
workers sharing `WorkerID` `"W1"`, the `duplicateId` errors appear in the
returned list at row indices `[1, 2, 1]` — the index resets when rule 2
moves from the clients collection to the workers collection — so the
errors of one catalog rule are not in ascending row-index order. -/
theorem c4_counterexample :
    (((validate
          [[("ClientID", Value.vStr "C1")], [("ClientID", Value.vStr "C1")],
           [("ClientID", Value.vStr "C1")]]
          [[("WorkerID", Value.vStr "W1")], [("WorkerID", Value.vStr "W1")]]
          []).filter (fun e => e.type == "duplicateId")).map (fun e => e.rowIndex)
        = [1, 2, 1]) ∧
    ¬ ((((validate
          [[("ClientID", Value.vStr "C1")], [("ClientID", Value.vStr "C1")],
           [("ClientID", Value.vStr "C1")]]
          [[("WorkerID", Value.vStr "W1")], [("WorkerID", Value.vStr "W1")]]
          []).filter (fun e => e.type == "duplicateId")).map
        (fun e => e.rowIndex)).Pairwise (· ≤ ·)) :=
  ⟨by decide, by decide⟩

/-- C4 amended: the engine output is the concatenation of the rule groups
in catalog-declaration order, the engine is a pure function of its input
(so the same snapshot always yields the identical list), and within each
single rule invocation — one entity collection and one field — the
reported row indices are strictly ascending; across the entities visited
by one catalog rule the row index may reset, as the counterexample shows. -/
theorem c4_ordering_per_invocation :
    (∀ (clients workers tasks : List Row),
      validate clients workers tasks = (ruleGroups clients workers tasks).join ∧
      validate clients workers tasks = validate clients workers tasks) ∧
    (∀ (data : List Row) (eT : String) (req : List String),
      (validateRequiredColumns data eT req).length ≤ 1) ∧
    (∀ (data : List Row) (eT idCol : String),
      ((validateUniqueIds data eT idCol).map (fun e => e.rowIndex)).Pairwise (· < ·)) ∧
    (∀ (data : List Row) (eT fld ty : String),
      ((validateArrayFields data eT fld ty).map (fun e => e.rowIndex)).Pairwise (· < ·)) ∧
    (∀ (data : List Row) (eT fld : String) (minV maxV : ℚ),
      ((validateRange data eT fld minV maxV).map (fun e => e.rowIndex)).Pairwise (· < ·)) ∧
    (∀ (data : List Row) (eT fld : String) (minV : ℚ),
      ((validateMinValue data eT fld minV).map (fun e => e.rowIndex)).Pairwise (· < ·)) ∧
    (∀ (data : List Row) (eT fld : String),
      ((validateJSON data eT fld).map (fun e => e.rowIndex)).Pairwise (· < ·)) ∧
    (∀ (clients tasks : List Row),
      ((validateTaskReferences clients tasks).map (fun e => e.rowIndex)).Pairwise (· < ·)) ∧
    (∀ (workers : List Row),
      ((validateWorkerCapacity workers).map (fun e => e.rowIndex)).Pairwise (· < ·)) ∧
    (∀ (workers tasks : List Row),
      ((validateSkillCoverage workers tasks).map (fun e => e.rowIndex)).Pairwise (· < ·)) :=
  ⟨fun c w t => ⟨validate_eq_join c w t, rfl⟩,
   validateRequiredColumns_length_le,
   validateUniqueIds_pairwise,
   validateArrayFields_pairwise,
   validateRange_pairwise,
   validateMinValue_pairwise,
   validateJSON_pairwise,
   validateTaskReferences_pairwise,
   validateWorkerCapacity_pairwise,
   validateSkillCoverage_pairwise⟩

/-- C5: the response-cleaning step applied to the raw provider response
` ```json\n{"a":1}\n``` ` yields exactly the string `{"a":1}`; and in
general, cleaning a response that is a JSON object body — JSON text
starting with `{` and ending with `}` — wrapped in a leading ` ```json `
fence and a trailing ` ``` ` fence returns exactly the embedded body,
including bodies whose string literals contain backquotes. -/
theorem c5_clean_roundtrip :
    cleanResponse "```json\n\x7b\"a\":1\x7d\n```" = "\x7b\"a\":1\x7d" ∧
    ∀ (b : String) (j : Json), jsonParse b = some j →
      b.data.head? = some '\x7b' → b.data.getLast? = some '\x7d' →
      cleanResponse ("```json\n" ++ b ++ "\n```") = b :=
  ⟨by decide, fun b j hp h1 h2 => cleanResponse_fenced b j hp h1 h2⟩

/-- Witness for C5 at a concrete body whose string literal contains a
backquote. -/
theorem c5_witness :
    jsonParse "\x7b\"b\":\"x\x60y\"\x7d"
        = some (Json.obj [("b", Json.str "x\x60y")]) ∧
    cleanResponse ("```json\n" ++ "\x7b\"b\":\"x\x60y\"\x7d" ++ "\n```")
      = "\x7b\"b\":\"x\x60y\"\x7d" :=
  ⟨rfl, c5_clean_roundtrip.2 "\x7b\"b\":\"x\x60y\"\x7d"
    (Json.obj [("b", Json.str "x\x60y")]) rfl (by decide) (by decide)⟩

/-- C9: the identifier-uniqueness rule only ever reports a row whose
identifier value is truthy, and a collection in which every row has a
falsy identifier (absent, `null`, or the empty string) produces no
`duplicateId` error at all, even though such rows share the same missing
identifier value. -/
theorem c9_falsy_ids_skipped :
    (∀ (data : List Row) (eT idCol : String) (e : ValidationError),
      e ∈ validateUniqueIds data eT idCol → (idAt data idCol e.rowIndex).truthy = true) ∧
    (∀ (data : List Row) (eT idCol : String),
      (∀ r ∈ data, (rowGet r idCol).truthy = false) →
      validateUniqueIds data eT idCol = []) := by
  have key : ∀ (data : List Row) (eT idCol : String) (e : ValidationError),
      e ∈ validateUniqueIds data eT idCol →
      e.rowIndex < data.length ∧ (idAt data idCol e.rowIndex).truthy = true := by
    intro data eT idCol e he
    have hmap : e.rowIndex ∈ (validateUniqueIds data eT idCol).map (fun e => e.rowIndex) :=
      List.mem_map_of_mem _ he
    rw [validateUniqueIds_rowIndexes, List.mem_filter, List.mem_range] at hmap
    rcases hmap with ⟨hlt, hdup⟩
    rw [dupAt, Bool.and_eq_true] at hdup
    exact ⟨hlt, hdup.1⟩
  refine ⟨fun data eT idCol e he => (key data eT idCol e he).2, ?_⟩
  intro data eT idCol hfalsy
  rw [List.eq_nil_iff_forall_not_mem]
  intro e he
  rcases key data eT idCol e he with ⟨hlt, htr⟩
  have hrmem : rowAt data e.rowIndex ∈ data := by
    rw [rowAt, List.getD_eq_getElem _ _ hlt]
    exact List.getElem_mem _
  have := hfalsy _ hrmem
  rw [idAt] at htr
  rw [this] at htr
  exact Bool.false_ne_true htr

/-- Witness for C9: two rows with an empty-string identifier, one with a
null identifier and one with the column absent produce no error. -/
theorem c9_witness :
    validateUniqueIds
      [[("ClientID", Value.vStr "")], [("ClientID", Value.vStr "")],
       [("ClientID", Value.vNull)], []] "clients" "ClientID" = [] :=
  c9_falsy_ids_skipped.2
    [[("ClientID", Value.vStr "")], [("ClientID", Value.vStr "")],
     [("ClientID", Value.vNull)], []] "clients" "ClientID" (by decide)

/-- C10: the required-columns rule decides presence solely from the keys
of the first row — an empty collection reports nothing, a first row
containing every required column yields no error regardless of the other
rows, at most one aggregate error is produced per entity, and any
produced error carries `rowIndex 0`, kind `missingColumns` and the first
missing column as `columnName`. -/
theorem c10_required_columns_first_row :
    (∀ (eT : String) (req : List String), validateRequiredColumns [] eT req = []) ∧
    (∀ (r0 : Row) (rest : List Row) (eT : String) (req : List String),
      (∀ col ∈ req, (r0.map Prod.fst).contains col = true) →
      validateRequiredColumns (r0 :: rest) eT req = []) ∧
    (∀ (data : List Row) (eT : String) (req : List String),
      (validateRequiredColumns data eT req).length ≤ 1) ∧
    (∀ (r0 : Row) (rest : List Row) (eT : String) (req : List String)
      (e : ValidationError), e ∈ validateRequiredColumns (r0 :: rest) eT req →
      e.rowIndex = 0 ∧ e.type = "missingColumns" ∧ e.severity = "error" ∧
      (req.filter (fun col => !((r0.map Prod.fst).contains col))).head? = some e.columnName) := by
  refine ⟨fun eT req => rfl, ?_, validateRequiredColumns_length_le, ?_⟩
  · intro r0 rest eT req h
    rw [validateRequiredColumns]
    rw [show req.filter (fun col => !((r0.map Prod.fst).contains col)) = [] from
      List.filter_eq_nil_iff.mpr (fun col hcol => by rw [h col hcol]; decide)]
  · intro r0 rest eT req e he
    rw [validateRequiredColumns] at he
    rcases hm : req.filter (fun col => !((r0.map Prod.fst).contains col)) with _ | ⟨c, tl⟩
    · rw [hm] at he
      simp at he
    · rw [hm] at he
      rcases List.mem_singleton.mp he with rfl
      exact ⟨rfl, rfl, rfl, rfl⟩

/-- Witness for C10: a required column present only in the first row
yields no error; a collection missing a column reports it at row 0. -/
theorem c10_witness :
    validateRequiredColumns [[("ClientID", Value.vNull), ("Name", Value.vNull),
        ("PriorityLevel", Value.vNull)], []] "clients"
      ["ClientID", "Name", "PriorityLevel"] = [] :=
  c10_required_columns_first_row.2.1
    [("ClientID", Value.vNull), ("Name", Value.vNull), ("PriorityLevel", Value.vNull)]
    [[]] "clients" ["ClientID", "Name", "PriorityLevel"] (by decide)

/-- C6 counterexample: the gemini backend, given permanently malformed
JSON responses, makes exactly one provider call — parse failures
propagate immediately there — refuting the claim that every provider
backend makes exactly 3 general attempts. -/
theorem c6_counterexample :
    (generateStructured .gemini (fun _ => .ok "not json") (fun j => some j)
      (fun _ => 0)).calls = 1 ∧
    (generateStructured .gemini (fun _ => .ok "not json") (fun j => some j)
      (fun _ => 0)).result = .error Gemini.parseFailure ∧
    ¬ (generateStructured .gemini (fun _ => .ok "not json") (fun j => some j)
      (fun _ => 0)).calls = 3 :=
  ⟨by decide, rfl, by decide⟩

/-- C6 amended: on permanently malformed JSON the ollama backend makes
exactly 3 attempts (with the fixed 1-second pause between them) and then
surfaces the last parse error without returning a value, while the gemini
and openai backends make exactly one call and surface the parse failure
immediately. -/
theorem c6_attempt_budget_per_provider :
    (∀ (T : Type) (backend : Nat → GenOutcome) (check : Json → Option T),
      (∀ k, ∃ s, backend k = .ok s ∧ jsonParse (cleanResponse s) = none) →
      Ollama.generateStructuredOutput backend check =
        ⟨.error jsonSyntaxError, 3, [Ollama.attemptDelay, Ollama.attemptDelay]⟩) ∧
    (∀ (T : Type) (backend : Nat → GenOutcome) (check : Json → Option T) (rand : Nat → ℚ),
      (∀ k, ∃ s, backend k = .ok s ∧ jsonParse s = none) →
      Gemini.generateStructuredOutput backend check rand =
        ⟨.error Gemini.parseFailure, 1, []⟩) ∧
    (∀ (T : Type) (backend : Nat → GenOutcome) (check : Json → Option T),
      (∀ k, ∃ s, backend k = .ok s ∧ jsonParse s = none) →
      OpenAIChat.generateStructuredOutput backend check =
        ⟨.error jsonSyntaxError, 1, []⟩) := by
  refine ⟨?_, ?_, ?_⟩
  · intro T backend check h
    obtain ⟨s1, hb1, hp1⟩ := h 1
    obtain ⟨s2, hb2, hp2⟩ := h 2
    obtain ⟨s3, hb3, hp3⟩ := h 3
    simp [Ollama.generateStructuredOutput, Ollama.maxAttempts, Ollama.go,
      hb1, hp1, hb2, hp2, hb3, hp3]
  · intro T backend check rand h
    obtain ⟨s, hb, hp⟩ := h 0
    simp [Gemini.generateStructuredOutput, Gemini.maxRetries, Gemini.go, hb, hp]
  · intro T backend check h
    obtain ⟨s, hb, hp⟩ := h 0
    simp [OpenAIChat.generateStructuredOutput, hb, hp]

/-- Witness for C6 at a concrete backend that always answers `"nope"`. -/
theorem c6_witness :
    Ollama.generateStructuredOutput (fun _ => .ok "nope")
        (fun j => (some j : Option Json)) =
      ⟨.error jsonSyntaxError, 3, [Ollama.attemptDelay, Ollama.attemptDelay]⟩ :=
  c6_attempt_budget_per_provider.1 Json (fun _ => .ok "nope") (fun j => some j)
    (fun _ => ⟨"nope", rfl, rfl⟩)

/-- C7 counterexample: the ollama backend catches a transport error raised
on the first attempt, sleeps the fixed 1-second pause, retries, and can
succeed on the second call — refuting the claim that for every provider
backend a non-rate-limit transport error propagates immediately with no
retry and no delay. -/
theorem c7_counterexample :
    Gemini.isRateLimit ⟨"ECONNREFUSED"⟩ = false ∧
    (Ollama.generateStructuredOutput
        (fun k => if k = 1 then .err ⟨"ECONNREFUSED"⟩ else .ok "\x7b\x7d")
        (fun j => (some j : Option Json))).calls = 2 ∧
    (Ollama.generateStructuredOutput
        (fun k => if k = 1 then .err ⟨"ECONNREFUSED"⟩ else .ok "\x7b\x7d")
        (fun j => (some j : Option Json))).result = .ok (Json.obj []) ∧
    (Ollama.generateStructuredOutput
        (fun k => if k = 1 then .err ⟨"ECONNREFUSED"⟩ else .ok "\x7b\x7d")
        (fun j => (some j : Option Json))).delays = [Ollama.attemptDelay] :=
  ⟨by decide, by decide, rfl, rfl⟩

/-- C7 amended: a non-rate-limit transport error propagates immediately —
after a single provider call and with no backoff sleep — for the gemini
and openai backends; the ollama backend instead treats transport errors
as attempt failures, retrying them inside its 3-attempt budget and
surfacing the last one. -/
theorem c7_transport_error_propagation :
    (∀ (T : Type) (backend : Nat → GenOutcome) (check : Json → Option T) (rand : Nat → ℚ)
      (e : JsError), backend 0 = .err e → Gemini.isRateLimit e = false →
      Gemini.generateStructuredOutput backend check rand = ⟨.error e, 1, []⟩) ∧
    (∀ (T : Type) (backend : Nat → GenOutcome) (check : Json → Option T) (e : JsError),
      backend 0 = .err e →
      OpenAIChat.generateStructuredOutput backend check = ⟨.error e, 1, []⟩) ∧
    (∀ (T : Type) (backend : Nat → GenOutcome) (check : Json → Option T) (f : Nat → JsError),
      (∀ k, backend k = .err (f k)) →
      Ollama.generateStructuredOutput backend check =
        ⟨.error (f 3), 3, [Ollama.attemptDelay, Ollama.attemptDelay]⟩) := by
  refine ⟨?_, ?_, ?_⟩
  · intro T backend check rand e hb hrl
    simp [Gemini.generateStructuredOutput, Gemini.maxRetries, Gemini.go, hb, hrl]
  · intro T backend check e hb
    simp [OpenAIChat.generateStructuredOutput, hb]
  · intro T backend check f hb
    simp [Ollama.generateStructuredOutput, Ollama.maxAttempts, Ollama.go,
      hb 1, hb 2, hb 3]

/-- Witness for C7 at a concrete gemini backend raising a transport error. -/
theorem c7_witness :
    Gemini.generateStructuredOutput (fun _ => .err ⟨"boom"⟩)
        (fun j => (some j : Option Json)) (fun _ => 0) = ⟨.error ⟨"boom"⟩, 1, []⟩ :=
  c7_transport_error_propagation.1 Json (fun _ => .err ⟨"boom"⟩) (fun j => some j)
    (fun _ => 0) ⟨"boom"⟩ rfl (by decide)

/-- C8 counterexample: with rate-limit failures on the first five calls
and a parseable success available on the sixth, the gemini retry loop
stops after five provider calls (one initial call plus four executed
retries) and surfaces the last rate-limit error — the fifth retry the
claim promises never runs, so the available success is never returned. -/
theorem c8_counterexample :
    Gemini.isRateLimit ⟨"429 Too Many Requests"⟩ = true ∧
    (jsonParse "\x7b\x7d").isSome = true ∧
    (Gemini.generateStructuredOutput
        (fun k => if k < 5 then .err ⟨"429 Too Many Requests"⟩ else .ok "\x7b\x7d")
        (fun j => (some j : Option Json)) (fun _ => 0)).calls = 5 ∧
    (Gemini.generateStructuredOutput
        (fun k => if k < 5 then .err ⟨"429 Too Many Requests"⟩ else .ok "\x7b\x7d")
        (fun j => (some j : Option Json)) (fun _ => 0)).result
      = .error ⟨"429 Too Many Requests"⟩ :=
  ⟨by decide, by decide, by decide, rfl⟩

/-- C8 amended: when the gemini backend reports rate limiting the call is
retried with exponential backoff, up to 5 provider calls in total (one
initial call plus at most 4 executed retries).  A success on any of those
calls — for example rate-limit failures on the first two calls and
success on the third — returns the validated value; after the fifth
consecutive rate-limit failure the last error is surfaced.  The delay
before the k-th retry is `min(60000 ms, 1000 ms · 2^k · (0.8 + 0.4·r))`
with `r` the random draw: it grows geometrically from the 1-second base,
is capped at 60 seconds, and carries ±20% jitter. -/
theorem c8_rate_limit_backoff :
    (∀ (T : Type) (backend : Nat → GenOutcome) (check : Json → Option T) (rand : Nat → ℚ)
      (e0 e1 : JsError) (s : String) (v : T),
      backend 0 = .err e0 → Gemini.isRateLimit e0 = true →
      backend 1 = .err e1 → Gemini.isRateLimit e1 = true →
      backend 2 = .ok s → (jsonParse s).bind check = some v →
      Gemini.generateStructuredOutput backend check rand =
        ⟨.ok v, 3, [Gemini.backoff 1 (rand 0), Gemini.backoff 2 (rand 1)]⟩) ∧
    (∀ (T : Type) (backend : Nat → GenOutcome) (check : Json → Option T) (rand : Nat → ℚ)
      (f : Nat → JsError),
      (∀ k, backend k = .err (f k)) → (∀ k, Gemini.isRateLimit (f k) = true) →
      Gemini.generateStructuredOutput backend check rand =
        ⟨.error (f 4), 5,
         [Gemini.backoff 1 (rand 0), Gemini.backoff 2 (rand 1), Gemini.backoff 3 (rand 2),
          Gemini.backoff 4 (rand 3), Gemini.backoff 5 (rand 4)]⟩) ∧
    (∀ (k : Nat) (r : ℚ), Gemini.backoff k r ≤ 60000) ∧
    (∀ (k : Nat) (r : ℚ), 0 ≤ r → min 60000 (800 * 2 ^ k) ≤ Gemini.backoff k r) ∧
    (∀ (k : Nat) (r : ℚ), r ≤ 1 → Gemini.backoff k r ≤ 1200 * 2 ^ k) := by
  refine ⟨?_, ?_, ?_, ?_, ?_⟩
  · intro T backend check rand e0 e1 s v hb0 hr0 hb1 hr1 hb2 hv
    simp [Gemini.generateStructuredOutput, Gemini.maxRetries, Gemini.go,
      hb0, hr0, hb1, hr1, hb2, hv]
  · intro T backend check rand f hb hr
    simp [Gemini.generateStructuredOutput, Gemini.maxRetries, Gemini.go,
      hb 0, hb 1, hb 2, hb 3, hb 4, hr 0, hr 1, hr 2, hr 3, hr 4]
  · intro k r
    exact min_le_left _ _
  · intro k r hr
    refine min_le_min (le_refl _) ?_
    have hp : (0 : ℚ) ≤ 2 ^ k := by positivity
    nlinarith
  · intro k r hr
    refine le_trans (min_le_right _ _) ?_
    have hp : (0 : ℚ) ≤ 2 ^ k := by positivity
    nlinarith

/-- Witness for C8: rate-limit failures on the first two calls and
success on the third return the parsed value after exactly three calls. -/
theorem c8_witness :
    Gemini.generateStructuredOutput
        (fun k => if k < 2 then .err ⟨"429 Too Many Requests"⟩ else .ok "\x7b\x7d")
        (fun j => (some j : Option Json)) (fun _ => 0) =
      ⟨.ok (Json.obj []), 3,
       [Gemini.backoff 1 0, Gemini.backoff 2 0]⟩ :=
  c8_rate_limit_backoff.1 Json
    (fun k => if k < 2 then .err ⟨"429 Too Many Requests"⟩ else .ok "\x7b\x7d")
    (fun j => some j) (fun _ => 0) ⟨"429 Too Many Requests"⟩ ⟨"429 Too Many Requests"⟩
    "\x7b\x7d" (Json.obj []) rfl (by decide) rfl (by decide) rfl rfl
